import Mathlib

/-!
Verification of the core state-change accounting engine of the repository:
the changes-trie input preparation (`core/state-machine/src/changes_trie/`)
and the transaction pool (`core/transaction-pool/graph/src/pool.rs`).

The Rust source is shallowly embedded: bytes are lists of naturals, machine
integers are naturals with explicit bounds, `BTreeMap`s are key-sorted
association lists, fallible code returns `Except`/`Option`, and the
wall clock is an explicit `Nat` instant threaded through the pool
operations.  Components of the repository whose source files are not
available (the base pool, the rotator, the listener, the digest
configuration helpers) are modelled from the specification and marked as
such in their doc comments.
-/

namespace Substrate

/-- Bytes are modelled as lists of naturals, each standing for one `u8`. -/
abbrev Bytes := List Nat

/-! ## Canonical encoding of changes-trie input keys
(`core/state-machine/src/changes_trie/input.rs`) -/

/-- SCALE fixed-width little-endian encoding of a `u64` block number. -/
def encodeU64 (n : Nat) : Bytes :=
  [n % 256, n / 256 % 256, n / 256 ^ 2 % 256, n / 256 ^ 3 % 256,
   n / 256 ^ 4 % 256, n / 256 ^ 5 % 256, n / 256 ^ 6 % 256, n / 256 ^ 7 % 256]

/-- SCALE decoding of a `u64`: consume eight bytes, little-endian. -/
def decodeU64 : Bytes → Option (Nat × Bytes)
  | b0 :: b1 :: b2 :: b3 :: b4 :: b5 :: b6 :: b7 :: rest =>
    some (b0 + 256 * b1 + 256 ^ 2 * b2 + 256 ^ 3 * b3 + 256 ^ 4 * b4 +
      256 ^ 5 * b5 + 256 ^ 6 * b6 + 256 ^ 7 * b7, rest)
  | _ => none

/-- SCALE compact (general integer) encoding of a `u32`, used for the
length prefix of byte vectors. -/
def compactEnc (n : Nat) : Bytes :=
  if n < 64 then [4 * n]
  else if n < 2 ^ 14 then [(4 * n + 1) % 256, (4 * n + 1) / 256]
  else if n < 2 ^ 30 then
    [(4 * n + 2) % 256, (4 * n + 2) / 256 % 256,
     (4 * n + 2) / 256 ^ 2 % 256, (4 * n + 2) / 256 ^ 3 % 256]
  else
    [3, n % 256, n / 256 % 256, n / 256 ^ 2 % 256, n / 256 ^ 3 % 256]

/-- SCALE compact decoding of a `u32`. The low two bits of the first byte
select the mode; the big-integer mode for `u32` carries exactly four
further little-endian bytes. -/
def compactDec : Bytes → Option (Nat × Bytes)
  | [] => none
  | b :: rest =>
    match b % 4 with
    | 0 => some (b / 4, rest)
    | 1 =>
      match rest with
      | b1 :: r => some ((b + 256 * b1) / 4, r)
      | [] => none
    | 2 =>
      match rest with
      | b1 :: b2 :: b3 :: r =>
        some ((b + 256 * b1 + 256 ^ 2 * b2 + 256 ^ 3 * b3) / 4, r)
      | _ => none
    | _ =>
      if b / 4 = 0 then
        match rest with
        | b0 :: b1 :: b2 :: b3 :: r =>
          some (b0 + 256 * b1 + 256 ^ 2 * b2 + 256 ^ 3 * b3, r)
        | _ => none
      else none

/-- SCALE encoding of a byte vector: compact length prefix, then the bytes. -/
def encodeBytes (k : Bytes) : Bytes := compactEnc k.length ++ k

/-- SCALE decoding of a byte vector. -/
def decodeBytes (l : Bytes) : Option (Bytes × Bytes) :=
  match compactDec l with
  | some (n, rest) =>
    if n ≤ rest.length then some (rest.take n, rest.drop n) else none
  | none => none

/-- The three tagged key families of the changes trie
(`InputKey` in `changes_trie/input.rs`). -/
inductive InputKey where
  | extrinsicIndex (block : Nat) (key : Bytes)
  | digestIndex (block : Nat) (key : Bytes)
  | childIndex (block : Nat) (storageKey : Bytes)
deriving DecidableEq

/-- The block number carried by an input key. -/
def InputKey.block : InputKey → Nat
  | .extrinsicIndex b _ => b
  | .digestIndex b _ => b
  | .childIndex b _ => b

/-- The key (or child storage key) bytes carried by an input key. -/
def InputKey.keyBytes : InputKey → Bytes
  | .extrinsicIndex _ k => k
  | .digestIndex _ k => k
  | .childIndex _ sk => sk

/-- Canonical encoding of an input key: tag byte (1, 2 or 3), the encoded
block number, then the length-prefixed key, mirroring the three `Encode`
implementations in `changes_trie/input.rs`. -/
def encodeInputKey : InputKey → Bytes
  | .extrinsicIndex b k => 1 :: (encodeU64 b ++ encodeBytes k)
  | .digestIndex b k => 2 :: (encodeU64 b ++ encodeBytes k)
  | .childIndex b sk => 3 :: (encodeU64 b ++ encodeBytes sk)

/-- Decoding of an input key (`Decode for InputKey` in
`changes_trie/input.rs`): read the tag byte, then block and key. -/
def decodeInputKey : Bytes → Option (InputKey × Bytes)
  | [] => none
  | t :: rest =>
    match t with
    | 1 =>
      match decodeU64 rest with
      | some (b, r1) =>
        match decodeBytes r1 with
        | some (k, r2) => some (.extrinsicIndex b k, r2)
        | none => none
      | none => none
    | 2 =>
      match decodeU64 rest with
      | some (b, r1) =>
        match decodeBytes r1 with
        | some (k, r2) => some (.digestIndex b k, r2)
        | none => none
      | none => none
    | 3 =>
      match decodeU64 rest with
      | some (b, r1) =>
        match decodeBytes r1 with
        | some (sk, r2) => some (.childIndex b sk, r2)
        | none => none
      | none => none
    | _ => none

/-- `ExtrinsicIndex::key_neutral_prefix`: tag byte 1 followed by the
encoded block number. -/
def extrinsicIndexPref (block : Nat) : Bytes := 1 :: encodeU64 block

/-- `DigestIndex::key_neutral_prefix`: tag byte 2 followed by the encoded
block number. -/
def digestIndexPref (block : Nat) : Bytes := 2 :: encodeU64 block

/-- `ChildIndex::key_neutral_prefix`: tag byte 3 followed by the encoded
block number. -/
def childIndexPref (block : Nat) : Bytes := 3 :: encodeU64 block

/-! ## Key-sorted association lists

`BTreeMap<Vec<u8>, _>` is embedded as an association list kept sorted in
ascending lexicographic order of its byte-string keys. -/

/-- Lexicographic strict order on byte strings, the ordering of
`Vec<u8>` keys inside a `BTreeMap`. -/
def bytesLt : Bytes → Bytes → Bool
  | [], [] => false
  | [], _ :: _ => true
  | _ :: _, [] => false
  | a :: as, b :: bs => a < b || (a == b && bytesLt as bs)

/-- Lookup in an association list (`BTreeMap::get`). -/
def alookup {α : Type} : List (Bytes × α) → Bytes → Option α
  | [], _ => none
  | e :: t, k => if e.1 = k then some e.2 else alookup t k

/-- Replace the value stored at a key, keeping the key set unchanged. -/
def aupdate {α : Type} : List (Bytes × α) → Bytes → α → List (Bytes × α)
  | [], _, _ => []
  | e :: t, k, v => if e.1 = k then (k, v) :: t else e :: aupdate t k v

/-- Sorted insertion (`BTreeMap::insert`): place the pair before the first
strictly greater key, replacing an equal key. -/
def ainsert {α : Type} : List (Bytes × α) → Bytes → α → List (Bytes × α)
  | [], k, v => [(k, v)]
  | e :: t, k, v =>
    if bytesLt k e.1 then (k, v) :: e :: t
    else if e.1 = k then (k, v) :: t
    else e :: ainsert t k v

/-- Sorted insertion into a plain key set (`BTreeSet<Vec<u8>>::insert`). -/
def insKey (k : Bytes) : List Bytes → List Bytes
  | [] => [k]
  | b :: t =>
    if bytesLt k b then k :: b :: t
    else if k = b then b :: t
    else b :: insKey k t

/-- Insertion into a sorted list of naturals. -/
def insNat (a : Nat) : List Nat → List Nat
  | [] => [a]
  | b :: t => if a ≤ b then a :: b :: t else b :: insNat a t

/-- Sorting a list of naturals ascending (`Vec::sort_unstable`). -/
def sortNat : List Nat → List Nat
  | [] => []
  | a :: t => insNat a (sortNat t)

/-! ## Overlay and backend
(`OverlayedChanges` of `core/state-machine/src/overlayed_changes.rs`;
its source file is not part of the corpus, so the structure follows the
shape used by `changes_trie/build.rs` and the specification §3.) -/

/-- One overlay entry: the written value (`none` = deletion) and the set
of extrinsic indices that touched the key (`none` when the write is not
attributable to an extrinsic).  The extrinsics set is a `BTreeSet<u32>`,
so it is ascending and duplicate-free by construction. -/
structure OverlayedValue where
  value : Option Bytes
  extrinsics : Option (List Nat)
deriving DecidableEq

/-- One overlay layer: the top key map and the per-child-trie key maps. -/
structure OverlayedChangeSet where
  top : List (Bytes × OverlayedValue)
  children : List (Bytes × List (Bytes × OverlayedValue))
deriving DecidableEq

/-- The two overlay layers of the block under construction. -/
structure OverlayedChanges where
  prospective : OverlayedChangeSet
  committed : OverlayedChangeSet
deriving DecidableEq

/-- Modelled from the spec: `OverlayedChanges::storage` (the source file
`overlayed_changes.rs` is missing from the corpus).  The effective
overlay view of a key: the prospective layer overrides the committed
layer; a key absent from both layers is unchanged (`none`). -/
def OverlayedChanges.storage (c : OverlayedChanges) (k : Bytes) :
    Option (Option Bytes) :=
  match alookup c.prospective.top k with
  | some ov => some ov.value
  | none =>
    match alookup c.committed.top k with
    | some ov => some ov.value
    | none => none

/-- Modelled from the spec: `OverlayedChanges::child_storage`, the child
trie analogue of `OverlayedChanges.storage`. -/
def OverlayedChanges.child_storage (c : OverlayedChanges) (sk k : Bytes) :
    Option (Option Bytes) :=
  match (alookup c.prospective.children sk).bind (fun m => alookup m k) with
  | some ov => some ov.value
  | none =>
    match (alookup c.committed.children sk).bind (fun m => alookup m k) with
    | some ov => some ov.value
    | none => none

/-- The keyed-storage backend consumed by the builder.  Storage errors
abort the build in the source; the embedding models an infallible
backend, which covers every successful run. -/
structure BackendM where
  exists_storage : Bytes → Bool
  exists_child_storage : Bytes → Bytes → Bool

/-! ## Extrinsic-index input preparation
(`prepare_extrinsics_input_inner` in `changes_trie/build.rs`) -/

/-- The temporary-value filter of `prepare_extrinsics_input_inner`
(build.rs lines 141-156): a key is dropped when its effective overlay
value is not a live value AND the backend does not hold the key. -/
def tempDrop (backend : BackendM) (changes : OverlayedChanges)
    (sk : Option Bytes) (k : Bytes) : Bool :=
  match sk with
  | some s =>
    !(((changes.child_storage s k).map Option.isSome).getD false) &&
      !(backend.exists_child_storage s k)
  | none =>
    !(((changes.storage k).map Option.isSome).getD false) &&
      !(backend.exists_storage k)

/-- Single input pair of the changes trie (`InputPair` in
`changes_trie/input.rs`), with the key structs flattened. -/
inductive InputPair where
  | extrinsicIndex (block : Nat) (key : Bytes) (value : List Nat)
  | digestIndex (block : Nat) (key : Bytes) (value : List Nat)
  | childIndex (block : Nat) (storageKey : Bytes) (value : Bytes)
deriving DecidableEq

/-- One step of the `try_fold` of `prepare_extrinsics_input_inner`:
an occupied entry extends its extrinsics list and re-sorts; a vacant
entry is first run through the temporary-value filter and then inserted
with the layer's (already ascending) extrinsics set. -/
def extStep (backend : BackendM) (changes : OverlayedChanges)
    (sk : Option Bytes) (map : List (Bytes × List Nat))
    (e : Bytes × OverlayedValue) : List (Bytes × List Nat) :=
  match alookup map e.1 with
  | some ex => aupdate map e.1 (sortNat (ex ++ e.2.extrinsics.getD []))
  | none =>
    if tempDrop backend changes sk e.1 then map
    else ainsert map e.1 (e.2.extrinsics.getD [])

/-- The committed-layer and prospective-layer entry lists scanned by
`prepare_extrinsics_input_inner` (top maps, or the maps of one child
trie). -/
def layerEntries (changes : OverlayedChanges) (sk : Option Bytes) :
    List (Bytes × OverlayedValue) × List (Bytes × OverlayedValue) :=
  match sk with
  | some s =>
    ((alookup changes.committed.children s).getD [],
     (alookup changes.prospective.children s).getD [])
  | none => (changes.committed.top, changes.prospective.top)

/-- `prepare_extrinsics_input_inner`: fold the committed entries then the
prospective entries (those with an attributable extrinsics set) into a
key-sorted map and emit the `ExtrinsicIndex` pairs in ascending key
order. -/
def prepareExtrinsicsInputInner (backend : BackendM) (block : Nat)
    (changes : OverlayedChanges) (sk : Option Bytes) : List InputPair :=
  ((((layerEntries changes sk).1 ++ (layerEntries changes sk).2).filter
      (fun e => e.2.extrinsics.isSome)).foldl
    (extStep backend changes sk) []).map
    (fun e => InputPair.extrinsicIndex block e.1 e.2)

/-- The `BTreeSet` of child storage keys appearing in either overlay
layer (`prepare_extrinsics_input`, build.rs lines 99-104). -/
def childrenKeys (changes : OverlayedChanges) : List Bytes :=
  (changes.prospective.children ++ changes.committed.children).foldl
    (fun s e => insKey e.1 s) []

/-- `prepare_extrinsics_input`: the top stream and one stream per child
trie storage key, each keyed by its `ChildIndex` (block, storage key). -/
def prepareExtrinsicsInput (backend : BackendM) (block : Nat)
    (changes : OverlayedChanges) :
    List InputPair × List ((Nat × Bytes) × List InputPair) :=
  (prepareExtrinsicsInputInner backend block changes none,
   (childrenKeys changes).map (fun sk =>
     ((block, sk), prepareExtrinsicsInputInner backend block changes (some sk))))

/-! ## Digest input preparation
(`prepare_digest_input` in `changes_trie/build.rs`) -/

/-- Changes-trie digest configuration
(`primitives::ChangesTrieConfiguration`). -/
structure Configuration where
  digestInterval : Nat
  digestLevels : Nat
deriving DecidableEq

/-- Blocks range where the configuration has been constant
(`ConfigurationRange` in `changes_trie/mod.rs`); `endBlock` embeds the
source's `end` field. -/
structure ConfigurationRange where
  config : Configuration
  zero : Nat
  endBlock : Option Nat
deriving DecidableEq

/-- The digest level of offset `r` from the configuration zero: the
largest level `l` (up to the given bound) whose interval divides `r`. -/
def digestLevelAtAux (interval r : Nat) : Nat → Nat
  | 0 => 0
  | l + 1 =>
    if r % interval ^ (l + 1) = 0 then l + 1 else digestLevelAtAux interval r l

/-- Modelled from the spec: `Configuration::next_max_level_digest_range`
(declared in `primitives`, outside the corpus).  For a block belonging
to digest level `l`, the range of the level-`l+1` digest containing it:
the range end is the block where the next higher-level digest would have
been built (spec §4.1.2 and scenario S4).  `none` when digests are
disabled or the block already sits at the maximal digest level. -/
def nextMaxLevelDigestRange (c : Configuration) (z block : Nat) :
    Option (Nat × Nat) :=
  if c.digestInterval ≤ 1 ∨ c.digestLevels = 0 then none
  else
    let r := block - z
    let l := digestLevelAtAux c.digestInterval r c.digestLevels
    if c.digestLevels ≤ l then none
    else
      let step := c.digestInterval ^ (l + 1)
      some (z + (r - 1) / step * step + 1, z + ((r - 1) / step + 1) * step)

/-- The historical changes-trie storage consumed by
`prepare_digest_input`: the trie root of each ancestor block (relative
to the fixed parent anchor), and prefix scans over a trie identified by
its root (`for_keys_with_prefix` / `for_key_values_with_prefix`). -/
structure CTStorage where
  root : Nat → Option Bytes
  keysWithPref : Bytes → Bytes → List Bytes
  keyValuesWithPref : Bytes → Bytes → List (Bytes × Bytes)

/-- `digest_build_iterator` lives in `changes_trie/build_iterator.rs`,
which is not part of the corpus; the development is parameterized over
it.  Its arguments are the configuration range and the block the digest
is being built for; it yields ascending ancestor block numbers. -/
abbrev DigestBuildIter := ConfigurationRange → Nat → List Nat

/-- `insert_to_map` of `prepare_digest_input` (build.rs lines 220-240):
record that `key` changed at ancestor block `a`, appending `a` unless it
is already the last recorded block (tail de-duplication). -/
def insertToMap (a : Nat) (map : List (Bytes × List Nat)) (key : Bytes) :
    List (Bytes × List Nat) :=
  match alookup map key with
  | none => ainsert map key [a]
  | some v => if v.getLast? = some a then map else aupdate map key (v ++ [a])

/-- The top-level keys found under the `ExtrinsicIndex` prefix of an
ancestor trie, decoded as in the source scan callbacks. -/
def extKeysAt (storage : CTStorage) (trieRoot : Bytes) (a : Nat) : List Bytes :=
  (storage.keysWithPref trieRoot (extrinsicIndexPref a)).filterMap (fun kb =>
    match decodeInputKey kb with
    | some (.extrinsicIndex _ k, _) => some k
    | _ => none)

/-- The keys found under the `DigestIndex` prefix of an ancestor trie. -/
def digKeysAt (storage : CTStorage) (trieRoot : Bytes) (a : Nat) : List Bytes :=
  (storage.keysWithPref trieRoot (digestIndexPref a)).filterMap (fun kb =>
    match decodeInputKey kb with
    | some (.digestIndex _ k, _) => some k
    | _ => none)

/-- The child-trie roots recorded under the `ChildIndex` prefix of an
ancestor trie, collected into a `BTreeMap` keyed by child storage key. -/
def childrenRootsAt (storage : CTStorage) (trieRoot : Bytes) (a : Nat) :
    List (Bytes × Bytes) :=
  (storage.keyValuesWithPref trieRoot (childIndexPref a)).foldl (fun cr kv =>
    match decodeInputKey kv.1 with
    | some (.childIndex _ sk, _) =>
      match decodeBytes kv.2 with
      | some (v, _) => ainsert cr sk v
      | none => cr
    | _ => cr) []

/-- Apply `f` to the inner map stored for child storage key `sk`,
creating an empty map first when absent
(`child_map.entry(..).or_insert_with(..)`). -/
def cupdate (m : List (Bytes × List (Bytes × List Nat))) (sk : Bytes)
    (f : List (Bytes × List Nat) → List (Bytes × List Nat)) :
    List (Bytes × List (Bytes × List Nat)) :=
  match alookup m sk with
  | some inner => aupdate m sk (f inner)
  | none => ainsert m sk (f [])

/-- One step of the `try_fold` of `prepare_digest_input` for ancestor
block `a`: load the ancestor trie root (missing root is fatal), fold its
extrinsic and digest prefix scans into the top map, and cascade into the
per-child maps through the recorded child roots. -/
def digestStep (storage : CTStorage)
    (acc : List (Bytes × List Nat) × List (Bytes × List (Bytes × List Nat)))
    (a : Nat) :
    Except String (List (Bytes × List Nat) × List (Bytes × List (Bytes × List Nat))) :=
  match storage.root a with
  | none => .error ("No changes trie root for block " ++ toString a)
  | some trieRoot =>
    let croots := childrenRootsAt storage trieRoot a
    let m1 := (extKeysAt storage trieRoot a).foldl (insertToMap a) acc.1
    let m2 := (digKeysAt storage trieRoot a).foldl (insertToMap a) m1
    let cm := croots.foldl (fun cm e =>
      cupdate cm e.1 (fun inner =>
        let i1 := (extKeysAt storage e.2 a).foldl (insertToMap a) inner
        (digKeysAt storage e.2 a).foldl (insertToMap a) i1)) acc.2
    .ok (m2, cm)

/-- The fold of `prepare_digest_input` over a given enumeration base
block: visit every ancestor yielded by `digest_build_iterator` and emit
the accumulated `DigestIndex` pairs in ascending key order, for the top
trie and for each discovered child trie. -/
def prepareDigestInputFold (dbi : DigestBuildIter) (config : ConfigurationRange)
    (block : Nat) (storage : CTStorage) (blockForDigest : Nat) :
    Except String (List InputPair × List ((Nat × Bytes) × List InputPair)) :=
  match (dbi config blockForDigest).foldlM (digestStep storage) ([], []) with
  | .error e => .error e
  | .ok (m, cm) =>
    .ok (m.map (fun e => InputPair.digestIndex block e.1 e.2),
      cm.map (fun e =>
        ((block, e.1), e.2.map (fun i => InputPair.digestIndex block i.1 i.2))))

/-- The block the digest is enumerated for (build.rs lines 201-208):
when the configuration deactivates exactly at the block being built, a
skewed digest is enumerated for the end of the next-greater digest
range (falling back to the block itself when there is none); otherwise
the block itself. -/
def blockForDigestOf (config : ConfigurationRange) (block : Nat) : Nat :=
  if config.endBlock = some block then
    ((nextMaxLevelDigestRange config.config config.zero block).map Prod.snd).getD block
  else block

/-- `prepare_digest_input`: enumerate for the (possibly skewed) digest
block. -/
def prepareDigestInput (dbi : DigestBuildIter) (config : ConfigurationRange)
    (block : Nat) (storage : CTStorage) :
    Except String (List InputPair × List ((Nat × Bytes) × List InputPair)) :=
  prepareDigestInputFold dbi config block storage (blockForDigestOf config block)

/-- `prepare_input`: the fused top-trie stream (extrinsic pairs chained
with digest pairs) and the per-child streams (each child's extrinsic
pairs chained with its digest pairs, then the digest-only children). -/
def prepareInput (dbi : DigestBuildIter) (backend : BackendM)
    (storage : CTStorage) (config : ConfigurationRange)
    (changes : OverlayedChanges) (parentNumber : Nat) :
    Except String (List InputPair × List ((Nat × Bytes) × List InputPair)) :=
  match prepareDigestInput dbi config (parentNumber + 1) storage with
  | .error e => .error e
  | .ok (digTop, digChildren) =>
    .ok ((prepareExtrinsicsInput backend (parentNumber + 1) changes).1 ++ digTop,
      (prepareExtrinsicsInput backend (parentNumber + 1) changes).2.map (fun e =>
        (e.1, e.2 ++
          (((digChildren.find? (fun d => decide (d.1 = e.1))).map Prod.snd).getD [])))
      ++ digChildren.filter
        (fun d => !((prepareExtrinsicsInput backend (parentNumber + 1) changes).2.any
          (fun e => decide (e.1 = d.1)))))

/-! ## Transaction pool (`core/transaction-pool/graph/src/pool.rs`)

Hashes, block hashes and instants are naturals.  The wall clock is an
explicit `now` parameter.  The base pool, rotator and listener live in
source files missing from the corpus and are modelled from the
specification (§2.B, §4.2, §4.3). -/

/-- Tags (`requires`/`provides`) are opaque byte strings. -/
abbrev Tag := Bytes

/-- A raw extrinsic: an opaque payload plus the `is_even` routing
predicate consulted by `submit_at` (the predicate's implementation is
external to the corpus, so it is carried as data). -/
structure Extrinsic where
  payload : Nat
  is_even : Option Bool
deriving DecidableEq

/-- A pool transaction (`base_pool::Transaction`, fields as used by
`pool.rs` and spec §3). -/
structure Transaction where
  data : Extrinsic
  bytes : Nat
  hash : Nat
  priority : Nat
  requires : List Tag
  provides : List Tag
  valid_till : Nat
  propagate : Bool
deriving DecidableEq

/-- Validation outcome of `ChainApi::validate_transaction`
(`sr_primitives::transaction_validity::TransactionValidity`). -/
inductive TransactionValidity where
  | valid (priority : Nat) (requires : List Tag) (provides : List Tag)
      (longevity : Nat) (propagate : Bool)
  | invalid (code : Nat)
  | unknown (code : Nat)
deriving DecidableEq

/-- Modelled from the spec (§7): the pool error kinds surfaced by the
operations embedded here (`graph/src/error.rs` is missing from the
corpus).  Error payloads irrelevant to control flow are dropped. -/
inductive PoolError where
  | invalidBlockId
  | temporarilyBanned
  | noTagsProvided
  | invalidTransaction (code : Nat)
  | unknownTransactionValidity (code : Nat)
  | alreadyImported (hash : Nat)
  | tooLowPriority (old new : Nat)
  | cycleDetected
  | immediatelyDropped
deriving DecidableEq

/-- A block id: by number or by hash. -/
inductive BlockId where
  | number (n : Nat)
  | hash (h : Nat)
deriving DecidableEq

/-- The external validator and hasher (`ChainApi` trait in `pool.rs`). -/
structure ChainApi where
  validate_transaction : BlockId → Extrinsic → Except PoolError TransactionValidity
  block_id_to_number : BlockId → Except PoolError (Option Nat)
  block_id_to_hash : BlockId → Except PoolError (Option Nat)
  hash_and_length : Extrinsic → Nat × Nat

/-- Listener events, recorded as an append-only log (the `Listener` of
`listener.rs` is missing from the corpus; events modelled from spec
§2.B.4). -/
inductive Event where
  | ready (h : Nat)
  | future (h : Nat)
  | dropped (h : Nat) (replacedBy : Option Nat)
  | invalid (h : Nat)
  | pruned (blockHash : Nat) (h : Nat)
deriving DecidableEq

/-- Insert or refresh an entry of a `Nat`-keyed association list. -/
def nupsert : List (Nat × Nat) → Nat → Nat → List (Nat × Nat)
  | [], k, v => [(k, v)]
  | e :: t, k, v => if e.1 = k then (k, v) :: t else e :: nupsert t k v

/-- Lookup in a `Nat`-keyed association list. -/
def nlookup : List (Nat × Nat) → Nat → Option Nat
  | [], _ => none
  | e :: t, k => if e.1 = k then some e.2 else nlookup t k

/-- Modelled from the spec (§4.3): the temporary-ban cache
(`rotator.rs` is missing from the corpus).  `bans` maps a hash to the
instant it was banned; entries expire after `ban_ttl`. -/
structure PoolRotator where
  ban_ttl : Nat
  bans : List (Nat × Nat)
deriving DecidableEq

/-- Modelled from the spec: `is_banned` is true iff an unexpired ban
entry exists for the hash. -/
def PoolRotator.is_banned (r : PoolRotator) (now h : Nat) : Bool :=
  match nlookup r.bans h with
  | some t => decide (now < t + r.ban_ttl)
  | none => false

/-- Modelled from the spec: `ban` inserts or refreshes entries at the
given instant. -/
def PoolRotator.ban (r : PoolRotator) (now : Nat) (hashes : List Nat) :
    PoolRotator :=
  { r with bans := hashes.foldl (fun bs h => nupsert bs h now) r.bans }

/-- Modelled from the spec: `ban_if_stale` bans (and reports true) when
the transaction is beyond its longevity period. -/
def PoolRotator.ban_if_stale (r : PoolRotator) (now bn : Nat)
    (tx : Transaction) : PoolRotator × Bool :=
  if tx.valid_till < bn then (r.ban now [tx.hash], true) else (r, false)

/-- Modelled from the spec: `clear_timeouts` drops expired ban entries. -/
def PoolRotator.clear_timeouts (r : PoolRotator) (now : Nat) : PoolRotator :=
  { r with bans := r.bans.filter (fun e => now < e.2 + r.ban_ttl) }

/-- Queue limits (`base_pool::Limit`). -/
structure Limit where
  count : Nat
  total_bytes : Nat
deriving DecidableEq

/-- Modelled from the spec (§4.2.2): a limit is exceeded when the current
count or byte total is above the configured cap. -/
def Limit.is_exceeded (l : Limit) (count bytes : Nat) : Bool :=
  l.count < count || l.total_bytes < bytes

/-- Pool configuration options (`Options` in `pool.rs`). -/
structure Options where
  ready : Limit
  future : Limit
deriving DecidableEq

/-- Base pool status (`base_pool::Status`). -/
structure Status where
  ready : Nat
  ready_bytes : Nat
  future : Nat
  future_bytes : Nat
deriving DecidableEq

/-- Modelled from the spec (§2.B.2): the ready/future partitioned queue
(`base_pool.rs` is missing from the corpus).  Each list is kept in
insertion order. -/
structure BasePool where
  ready : List Transaction
  future : List Transaction
deriving DecidableEq

/-- The status counters of a base pool. -/
def BasePool.status (p : BasePool) : Status :=
  { ready := p.ready.length, ready_bytes := (p.ready.map (fun t => t.bytes)).sum,
    future := p.future.length, future_bytes := (p.future.map (fun t => t.bytes)).sum }

/-- All tags provided by a list of transactions. -/
def providedTags (txs : List Transaction) : List Tag :=
  (txs.map (fun t => t.provides)).flatten

/-- Every required tag of `tx` is among `tags`. -/
def reqSatisfied (tags : List Tag) (tx : Transaction) : Bool :=
  tx.requires.all (fun t => tags.contains t)

/-- Import outcome of the base pool (`base_pool::Imported`). -/
inductive Imported where
  | ready (hash : Nat) (promoted : List Nat) (failed : List Nat)
      (removed : List Transaction)
  | future (hash : Nat)
deriving DecidableEq

/-- The hash of an import outcome (`Imported::hash`). -/
def Imported.hash : Imported → Nat
  | .ready h _ _ _ => h
  | .future h => h

/-- One promotion step: move the first future transaction whose
requirements are now satisfied into the ready queue. -/
def promoteStep (p : BasePool) : BasePool × Option Nat :=
  match p.future.find? (reqSatisfied (providedTags p.ready)) with
  | some tx =>
    ({ ready := p.ready ++ [tx], future := p.future.erase tx }, some tx.hash)
  | none => (p, none)

/-- Promote future transactions until none qualifies (fuelled by the
future-queue length, which shrinks at every step). -/
def promoteAll : Nat → BasePool → List Nat → BasePool × List Nat
  | 0, p, acc => (p, acc)
  | n + 1, p, acc =>
    match promoteStep p with
    | (p2, some h) => promoteAll n p2 (acc ++ [h])
    | (p2, none) => (p2, acc)

/-- Modelled from the spec (§4.2.1 step d): import a verified
transaction into the base pool.  A duplicate hash is rejected; a
transaction whose requirements are met goes to the ready queue, evicting
lower-priority ready transactions whose provided tags it re-provides
(rejecting the newcomer when it is not the higher-priority one) and
promoting any future transactions this unblocks; otherwise it parks in
the future queue. -/
def BasePool.importTx (p : BasePool) (tx : Transaction) :
    Except PoolError (BasePool × Imported) :=
  if (p.ready ++ p.future).any (fun t => t.hash == tx.hash) then
    .error (.alreadyImported tx.hash)
  else if reqSatisfied (providedTags p.ready) tx then
    let conflicts := p.ready.filter
      (fun t => t.provides.any (fun g => tx.provides.contains g))
    if conflicts.any (fun t => tx.priority ≤ t.priority) then
      .error (.tooLowPriority ((conflicts.map (fun t => t.priority)).foldl Nat.max 0)
        tx.priority)
    else
      let kept := p.ready.filter
        (fun t => !(t.provides.any (fun g => tx.provides.contains g)))
      let pr := promoteAll p.future.length
        { ready := kept ++ [tx], future := p.future } []
      .ok (pr.1, .ready tx.hash pr.2 [] conflicts)
  else
    .ok ({ p with future := p.future ++ [tx] }, .future tx.hash)

/-- The lowest-priority transaction of a queue, oldest first on ties. -/
def worstOf (l : List Transaction) : Option Transaction :=
  l.foldl (fun acc t =>
    match acc with
    | none => some t
    | some w => if t.priority < w.priority then some t else acc) none

/-- Modelled from the spec (§4.2.2): evict the lowest-priority
transactions (oldest first on ties) until the queue is within the
limit. -/
def evictList (lim : Limit) : Nat → List Transaction → List Transaction × List Transaction
  | 0, l => (l, [])
  | n + 1, l =>
    if lim.is_exceeded l.length ((l.map (fun t => t.bytes)).sum) then
      match worstOf l with
      | some w =>
        ((evictList lim n (l.erase w)).1, w :: (evictList lim n (l.erase w)).2)
      | none => (l, [])
    else (l, [])

/-- Modelled from the spec (§4.2.2): base-pool limit enforcement over
both queues, returning the evicted transactions. -/
def BasePool.enforce_limits (p : BasePool) (readyLim futureLim : Limit) :
    BasePool × List Transaction :=
  let r := evictList readyLim p.ready.length p.ready
  let f := evictList futureLim p.future.length p.future
  ({ ready := r.1, future := f.1 }, r.2 ++ f.2)

/-- Result of base-pool tag pruning (`base_pool::PruneStatus`). -/
structure PruneStatus where
  promoted : List Imported
  failed : List Nat
  pruned : List Transaction
deriving DecidableEq

/-- Ready transactions that directly provide one of the tags, and the
rest. -/
def pruneDirect (ready : List Transaction) (tags : List Tag) :
    List Transaction × List Transaction :=
  (ready.filter (fun t => !(t.provides.any (fun g => tags.contains g))),
   ready.filter (fun t => t.provides.any (fun g => tags.contains g)))

/-- Cascade removal: also remove ready transactions that required a tag
provided by an already-removed transaction (fuelled). -/
def cascade : Nat → List Transaction → List Transaction →
    List Transaction × List Transaction
  | 0, rem, removed => (rem, removed)
  | n + 1, rem, removed =>
    let rtags := providedTags removed
    let more := rem.filter (fun t => t.requires.any (fun g => rtags.contains g))
    if more.isEmpty then (rem, removed)
    else
      cascade n (rem.filter (fun t => !(t.requires.any (fun g => rtags.contains g))))
        (removed ++ more)

/-- Modelled from the spec (§4.2.3 step 1): prune every ready
transaction providing one of the tags, cascade to dependants, and
promote future transactions whose requirements are now satisfied (the
tags being treated as provided from now on). -/
def BasePool.prune_tags (p : BasePool) (tags : List Tag) :
    BasePool × PruneStatus :=
  let d := pruneDirect p.ready tags
  let c := cascade p.ready.length d.1 d.2
  let nowTags := tags ++ providedTags c.1
  let promotedTx := p.future.filter (reqSatisfied nowTags)
  let rest := p.future.filter (fun t => !(reqSatisfied nowTags t))
  ({ ready := c.1 ++ promotedTx, future := rest },
   { promoted := promotedTx.map (fun t => Imported.ready t.hash [] [] []),
     failed := [], pruned := c.2 })

/-- Modelled from the spec (§4.2.5): unconditional removal from both
queues of the base pool, returning the removed transactions. -/
def BasePool.remove_invalid (p : BasePool) (hashes : List Nat) :
    BasePool × List Transaction :=
  ({ ready := p.ready.filter (fun t => !(hashes.contains t.hash)),
     future := p.future.filter (fun t => !(hashes.contains t.hash)) },
   p.ready.filter (fun t => hashes.contains t.hash) ++
     p.future.filter (fun t => hashes.contains t.hash))

/-- The shared state of `Pool`: the two base pools, the listener event
log, the rotator, and a counter standing in for the import-notification
sink wakeups. -/
structure PoolState where
  pool : BasePool
  pool2 : BasePool
  listener : List Event
  rotator : PoolRotator
  notifications : Nat
deriving DecidableEq

/-- `fire_events` (pool.rs lines 543-568). -/
def fireEvents (listener : List Event) : Imported → List Event
  | .ready h _promoted failed removed =>
    ((listener ++ [Event.ready h]) ++ failed.map Event.invalid)
      ++ removed.map (fun r => Event.dropped r.hash (some h))
      ++ _promoted.map Event.ready
  | .future h => listener ++ [Event.future h]

/-- Wake import-notification subscribers on a ready import, then fire
the listener events (pool.rs lines 182-190). -/
def notifyAndFire (s : PoolState) (imported : Imported) : PoolState :=
  let s1 := match imported with
    | .ready _ _ _ _ => { s with notifications := s.notifications + 1 }
    | .future _ => s
  { s1 with listener := fireEvents s1.listener imported }

/-- `saturated_into::<u64>()` of a block number. -/
def satU64 (n : Nat) : Nat := min n (2 ^ 64 - 1)

/-- `u64::saturating_add`. -/
def satAddU64 (a b : Nat) : Nat := min (a + b) (2 ^ 64 - 1)

/-- The `valid_till` stored for an admitted transaction
(pool.rs lines 159-162): the block number saturated into `u64`, then a
saturating add of the longevity. -/
def computeValidTill (blockNumber longevity : Nat) : Nat :=
  satAddU64 (satU64 blockNumber) longevity

/-- Per-element processing of `submit_at` (pool.rs lines 140-191): ban
check, validation, construction of the pool transaction, routing on
`is_even` into the first or second base pool, notifications and listener
events. -/
def processXt (api : ChainApi) (now bn : Nat) (atB : BlockId) (s : PoolState)
    (xt : Extrinsic) : PoolState × Except PoolError Nat :=
  let hb := api.hash_and_length xt
  if s.rotator.is_banned now hb.1 then (s, .error .temporarilyBanned)
  else
    match api.validate_transaction atB xt with
    | .error e => (s, .error e)
    | .ok (.invalid e) => (s, .error (.invalidTransaction e))
    | .ok (.unknown e) =>
      ({ s with listener := s.listener ++ [Event.invalid hb.1] },
       .error (.unknownTransactionValidity e))
    | .ok (.valid priority requires provides longevity propagate) =>
      if provides.isEmpty then (s, .error .noTagsProvided)
      else
        let tx : Transaction :=
          { data := xt, bytes := hb.2, hash := hb.1, priority := priority,
            requires := requires, provides := provides,
            valid_till := computeValidTill bn longevity, propagate := propagate }
        match xt.is_even with
        | some true =>
          match s.pool2.importTx tx with
          | .error e => (s, .error e)
          | .ok (p2, imported) =>
            (notifyAndFire { s with pool2 := p2 } imported, .ok imported.hash)
        | _ =>
          match s.pool.importTx tx with
          | .error e => (s, .error e)
          | .ok (p1, imported) =>
            (notifyAndFire { s with pool := p1 } imported, .ok imported.hash)

/-- The batch phase of `submit_at`: process every extrinsic in order,
collecting the per-element results. -/
def submitAtBatch (api : ChainApi) (now bn : Nat) (atB : BlockId)
    (s : PoolState) (xts : List Extrinsic) :
    PoolState × List (Except PoolError Nat) :=
  xts.foldl (fun acc xt =>
    ((processXt api now bn atB acc.1 xt).1,
     acc.2 ++ [(processXt api now bn atB acc.1 xt).2])) (s, [])

/-- `enforce_limits_by_pool` (pool.rs lines 218-256) applied to the
first (`usePool2 = false`) or second base pool: when a limit is
exceeded, evict, ban every evicted hash, and fire `dropped` events. -/
def enforceLimitsByPool (opts : Options) (now : Nat) (s : PoolState)
    (usePool2 : Bool) : PoolState × List Nat :=
  let p := if usePool2 then s.pool2 else s.pool
  let status := p.status
  if opts.ready.is_exceeded status.ready status.ready_bytes
      || opts.future.is_exceeded status.future status.future_bytes then
    let er := p.enforce_limits opts.ready opts.future
    let removed := er.2.map (fun t => t.hash)
    let s1 := if usePool2 then { s with pool2 := er.1 } else { s with pool := er.1 }
    let s2 := { s1 with rotator := s1.rotator.ban now removed }
    ({ s2 with listener := s2.listener ++ removed.map (fun h => Event.dropped h none) },
     removed)
  else (s, [])

/-- `enforce_limits` (pool.rs lines 207-216): both base pools, union of
the evicted hash sets. -/
def enforceLimits (opts : Options) (now : Nat) (s : PoolState) :
    PoolState × List Nat :=
  let a := enforceLimitsByPool opts now s false
  let b := enforceLimitsByPool opts now a.1 true
  (b.1, a.2 ++ b.2)

/-- `Pool::submit_at` (pool.rs lines 125-205): resolve the block id
(the only whole-call failure), run the batch, enforce limits, and
rewrite admitted results evicted by limit enforcement to
`ImmediatelyDropped`. -/
def submit_at (api : ChainApi) (opts : Options) (now : Nat) (s : PoolState)
    (atB : BlockId) (xts : List Extrinsic) :
    Except PoolError (PoolState × List (Except PoolError Nat)) :=
  match api.block_id_to_number atB with
  | .error e => .error e
  | .ok none => .error .invalidBlockId
  | .ok (some bn) =>
    let b := submitAtBatch api now bn atB s xts
    let el := enforceLimits opts now b.1
    .ok (el.1, b.2.map (fun r =>
      match r with
      | .ok h => if el.2.contains h then .error .immediatelyDropped else .ok h
      | .error e => .error e))

/-- `Pool::ready`: the ready iterator of the first base pool only. -/
def poolReady (s : PoolState) : List Transaction := s.pool.ready

/-- `Pool::status`: the status of the first base pool only. -/
def poolStatus (s : PoolState) : Status := s.pool.status

/-- `Pool::remove_invalid` (pool.rs lines 499-515): ban, remove from
both base pools, fire `invalid` events, return the removed
transactions. -/
def remove_invalid (now : Nat) (s : PoolState) (hashes : List Nat) :
    PoolState × List Transaction :=
  let s1 := { s with rotator := s.rotator.ban now hashes }
  let r1 := s1.pool.remove_invalid hashes
  let r2 := s1.pool2.remove_invalid hashes
  let invalid := r1.2 ++ r2.2
  ({ s1 with
      pool := r1.1, pool2 := r2.1,
      listener := s1.listener ++ invalid.map (fun t => Event.invalid t.hash) },
   invalid)

/-- The `ban_if_stale` filtering fold of `clear_stale`: scan the given
transactions, banning and collecting the stale ones. -/
def banIfStaleFold (now bn : Nat) (r : PoolRotator) (txs : List Transaction) :
    PoolRotator × List Nat :=
  txs.foldl (fun acc tx =>
    if (acc.1.ban_if_stale now bn tx).2 then
      ((acc.1.ban_if_stale now bn tx).1, acc.2 ++ [tx.hash])
    else ((acc.1.ban_if_stale now bn tx).1, acc.2)) (r, [])

/-- `Pool::clear_stale` (pool.rs lines 432-468): collect stale ready
transactions of the first pool and stale future transactions of both
pools, remove them as invalid, then clear expired ban timeouts. -/
def clear_stale (api : ChainApi) (now : Nat) (s : PoolState) (atB : BlockId) :
    Except PoolError PoolState :=
  match api.block_id_to_number atB with
  | .error e => .error e
  | .ok none => .error .invalidBlockId
  | .ok (some bnRaw) =>
    let bn := satU64 bnRaw
    let a := banIfStaleFold now bn s.rotator (poolReady s)
    let b := banIfStaleFold now bn a.1 (s.pool.future ++ s.pool2.future)
    let s1 := { s with rotator := b.1 }
    let s2 := (remove_invalid now s1 a.2).1
    let s3 := (remove_invalid now s2 b.2).1
    .ok { s3 with rotator := s3.rotator.clear_timeouts now }

/-- The hashes whose re-submission during pruning reported
`InvalidTransaction` (pool.rs lines 402-407). -/
def collectInvalid (hashes : List Nat) (results : List (Except PoolError Nat)) :
    List Nat :=
  (results.zip hashes).filterMap (fun rh =>
    match rh.1 with
    | .error (.invalidTransaction _) => some rh.2
    | _ => none)

/-- The first stage of `Pool::prune_tags` (pool.rs lines 366-390):
prune both base pools, fire promotion/drop listener events, and ban the
known imported hashes; returns the new state and the pruned
transactions. -/
def pruneTagsStage1 (now : Nat) (s : PoolState) (tags : List Tag)
    (knownImportedHashes : List Nat) : PoolState × List Transaction :=
  let b1 := s.pool.prune_tags tags
  let b2 := s.pool2.prune_tags tags
  let status : PruneStatus :=
    { promoted := b1.2.promoted ++ b2.2.promoted,
      failed := b1.2.failed ++ b2.2.failed,
      pruned := b1.2.pruned ++ b2.2.pruned }
  let s1 := { s with pool := b1.1, pool2 := b2.1 }
  let ev := status.failed.foldl (fun l f => l ++ [Event.dropped f none])
    (status.promoted.foldl fireEvents s1.listener)
  let s2 := { s1 with listener := ev }
  ({ s2 with rotator := s2.rotator.ban now knownImportedHashes }, status.pruned)

/-- `Pool::prune_tags` (pool.rs lines 360-425): run the first stage,
re-submit the pruned transactions, fire `pruned` events for the
collected-invalid and known imported hashes, and finish with
`clear_stale`. -/
def prune_tags (api : ChainApi) (opts : Options) (now : Nat) (s : PoolState)
    (atB : BlockId) (tags : List Tag) (knownImportedHashes : List Nat) :
    Except PoolError PoolState :=
  let st1 := pruneTagsStage1 now s tags knownImportedHashes
  let s3 := st1.1
  let prunedHashes := st1.2.map (fun t => t.hash)
  match submit_at api opts now s3 atB (st1.2.map (fun t => t.data)) with
  | .error e => .error e
  | .ok (s4, results) =>
    let allHashes := collectInvalid prunedHashes results ++ knownImportedHashes
    match api.block_id_to_hash atB with
    | .error e => .error e
    | .ok none => .error .invalidBlockId
    | .ok (some headerHash) =>
      clear_stale api now
        { s4 with listener :=
          s4.listener ++ allHashes.map (fun h => Event.pruned headerHash h) } atB

/-! ## Derived observations used in the theorem statements -/

/-- The key bytes of an input pair. -/
def InputPair.key : InputPair → Bytes
  | .extrinsicIndex _ k _ => k
  | .digestIndex _ k _ => k
  | .childIndex _ sk _ => sk

/-- The pair is an `ExtrinsicIndex` record. -/
def InputPair.isExt : InputPair → Bool
  | .extrinsicIndex _ _ _ => true
  | _ => false

/-- The pair is a `DigestIndex` record. -/
def InputPair.isDig : InputPair → Bool
  | .digestIndex _ _ _ => true
  | _ => false

/-- The pair is an `ExtrinsicIndex` record for key `k`. -/
def InputPair.isExtFor (k : Bytes) : InputPair → Bool
  | .extrinsicIndex _ key _ => key == k
  | _ => false

/-- Strict ascending key order between two input pairs, the order the
claims speak about. -/
def pairKeyLt (a b : InputPair) : Prop := bytesLt a.key b.key = true

/-- Strict ascending key order between two map entries. -/
def entryLt {α : Type} (a b : Bytes × α) : Prop := bytesLt a.1 b.1 = true

/-- The list of naturals is ascending (non-strict). -/
def sortedNatB : List Nat → Bool
  | [] => true
  | [_] => true
  | a :: b :: t => decide (a ≤ b) && sortedNatB (b :: t)

/-- The extrinsic indices recorded for key `k` in one overlay layer map:
empty when the key is absent or its entry is not attributable to
extrinsics. -/
def layerExt (layer : List (Bytes × OverlayedValue)) (k : Bytes) : List Nat :=
  match alookup layer k with
  | some ov => ov.extrinsics.getD []
  | none => []

/-! ## Concrete fixtures used by the witnesses -/

/-- A digest-build enumeration yielding no ancestor blocks. -/
def fixDbiNil : DigestBuildIter := fun _ _ => []

/-- A backend where every key exists. -/
def fixBackendAll : BackendM :=
  { exists_storage := fun _ => true, exists_child_storage := fun _ _ => true }

/-- A backend where no key exists. -/
def fixBackendNone : BackendM :=
  { exists_storage := fun _ => false, exists_child_storage := fun _ _ => false }

/-- A storage whose tries are all empty. -/
def fixStorageEmpty : CTStorage :=
  { root := fun _ => some [0], keysWithPref := fun _ _ => [],
    keyValuesWithPref := fun _ _ => [] }

/-- The overlay of the source's own build tests: two prospective and two
committed top entries. -/
def fixChanges : OverlayedChanges :=
  { prospective :=
      { top := [([100], ⟨some [200], some [0, 2]⟩), ([103], ⟨none, some [0, 1]⟩)],
        children := [] },
    committed :=
      { top := [([100], ⟨some [202], some [3]⟩), ([101], ⟨some [203], some [1]⟩)],
        children := [] } }

/-- An overlay whose committed and prospective layers record the same
extrinsic index 1 for the same key. -/
def fixChangesDup : OverlayedChanges :=
  { prospective := { top := [([7], ⟨some [0], some [1]⟩)], children := [] },
    committed := { top := [([7], ⟨some [0], some [1]⟩)], children := [] } }

/-- An overlay holding one temporary value: key 110 deleted, absent from
the backend. -/
def fixChangesTemp : OverlayedChanges :=
  { prospective := { top := [([110], ⟨none, some [1]⟩)], children := [] },
    committed := { top := [], children := [] } }

/-- Configuration `{interval 4, levels 2}` active from block 0, no end. -/
def fixConfig : ConfigurationRange :=
  { config := { digestInterval := 4, digestLevels := 2 }, zero := 0,
    endBlock := none }

/-- The same configuration deactivating at block 11 (scenario S4). -/
def fixConfigEnd : ConfigurationRange :=
  { config := { digestInterval := 4, digestLevels := 2 }, zero := 0,
    endBlock := some 11 }

/-- An empty pool state whose rotator has a one-hour ban TTL. -/
def fixPoolState : PoolState :=
  { pool := { ready := [], future := [] }, pool2 := { ready := [], future := [] },
    listener := [], rotator := { ban_ttl := 3600, bans := [] }, notifications := 0 }

/-- Default pool options (512 ready / 10 MiB, 128 future / 1 MiB). -/
def fixOptions : Options :=
  { ready := { count := 512, total_bytes := 10 * 1024 * 1024 },
    future := { count := 128, total_bytes := 1 * 1024 * 1024 } }

/-- Options whose limits are both zero, so any admission is evicted. -/
def fixOptionsZero : Options :=
  { ready := { count := 0, total_bytes := 0 },
    future := { count := 0, total_bytes := 0 } }

/-- A chain api parameterized by the resolved block number and the
longevity it reports: every extrinsic is valid, provides the single tag
`[0]`, and hashes to its payload. -/
def fixApi (bn longevity : Nat) : ChainApi :=
  { validate_transaction := fun _ _ => .ok (.valid 1 [] [[0]] longevity true),
    block_id_to_number := fun _ => .ok (some bn),
    block_id_to_hash := fun _ => .ok (some 99),
    hash_and_length := fun xt => (xt.payload, 1) }

/-- A chain api distinguishing extrinsics by payload: payload `n`
provides tag `[n]`, requires nothing, longevity 3. -/
def fixApi2 : ChainApi :=
  { validate_transaction := fun _ xt => .ok (.valid xt.payload [] [[xt.payload]] 3 true),
    block_id_to_number := fun _ => .ok (some 0),
    block_id_to_hash := fun _ => .ok (some 99),
    hash_and_length := fun xt => (xt.payload, 1) }

/-! ## Lexicographic order: basic facts -/

theorem bytesLt_irrefl (a : Bytes) : bytesLt a a = false := by
  induction a with
  | nil => rfl
  | cons x t ih => simp [bytesLt, ih]

theorem bytesLt_total (a b : Bytes) :
    a = b ∨ bytesLt a b = true ∨ bytesLt b a = true := by
  induction a generalizing b with
  | nil => cases b <;> simp [bytesLt]
  | cons x t ih =>
    cases b with
    | nil => simp [bytesLt]
    | cons y u =>
      rcases Nat.lt_trichotomy x y with h | h | h
      · right; left; simp [bytesLt, h]
      · subst h
        rcases ih u with h2 | h2 | h2
        · subst h2; left; rfl
        · right; left; simp [bytesLt, h2]
        · right; right; simp [bytesLt, h2]
      · right; right; simp [bytesLt, h]

theorem bytesLt_trans {a b c : Bytes} (h1 : bytesLt a b = true)
    (h2 : bytesLt b c = true) : bytesLt a c = true := by
  induction a generalizing b c with
  | nil =>
    cases b with
    | nil => exact absurd h1 (by simp [bytesLt])
    | cons y u =>
      cases c with
      | nil => exact absurd h2 (by simp [bytesLt])
      | cons z v => simp [bytesLt]
  | cons x t ih =>
    cases b with
    | nil => exact absurd h1 (by simp [bytesLt])
    | cons y u =>
      cases c with
      | nil => exact absurd h2 (by simp [bytesLt])
      | cons z v =>
        simp only [bytesLt, Bool.or_eq_true, Bool.and_eq_true, beq_iff_eq,
          decide_eq_true_eq] at h1 h2 ⊢
        rcases h1 with h1 | ⟨he1, h1⟩
        · rcases h2 with h2 | ⟨he2, h2⟩
          · exact Or.inl (Nat.lt_trans h1 h2)
          · exact Or.inl (he2 ▸ h1)
        · rcases h2 with h2 | ⟨he2, h2⟩
          · exact Or.inl (he1 ▸ h2)
          · exact Or.inr ⟨he1.trans he2, ih h1 h2⟩

instance pairKeyLtDec : DecidableRel pairKeyLt := fun a b => by
  unfold pairKeyLt; infer_instance

instance entryLtDec {α : Type} : DecidableRel (entryLt (α := α)) := fun a b => by
  unfold entryLt; infer_instance

/-! ## Association list lemmas -/

theorem alookup_ainsert_self {α : Type} (m : List (Bytes × α)) (k : Bytes)
    (v : α) : alookup (ainsert m k v) k = some v := by
  induction m with
  | nil => simp [ainsert, alookup]
  | cons e t ih =>
    simp only [ainsert]
    split
    · simp [alookup]
    · split
      · simp [alookup]
      · next h1 h2 => simp [alookup, fun h : e.1 = k => h2 h, ih]

theorem alookup_ainsert_ne {α : Type} (m : List (Bytes × α)) {k k' : Bytes}
    (v : α) (h : k' ≠ k) : alookup (ainsert m k v) k' = alookup m k' := by
  have hkk : ¬(k = k') := fun hh => h hh.symm
  induction m with
  | nil => simp [ainsert, alookup, hkk]
  | cons e t ih =>
    simp only [ainsert]
    split
    · simp [alookup, hkk]
    · split
      · next _ heq => simp [alookup, heq, hkk]
      · simp [alookup, ih]

theorem alookup_aupdate_self {α : Type} (m : List (Bytes × α)) (k : Bytes)
    (v : α) : alookup (aupdate m k v) k = (alookup m k).map (fun _ => v) := by
  induction m with
  | nil => simp [aupdate, alookup]
  | cons e t ih =>
    simp only [aupdate]
    split
    · next heq => simp [alookup, heq]
    · next hne => simp [alookup, hne, ih]

theorem alookup_aupdate_ne {α : Type} (m : List (Bytes × α)) {k k' : Bytes}
    (v : α) (h : k' ≠ k) : alookup (aupdate m k v) k' = alookup m k' := by
  have hkk : ¬(k = k') := fun hh => h hh.symm
  induction m with
  | nil => simp [aupdate]
  | cons e t ih =>
    simp only [aupdate]
    split
    · next heq => simp [alookup, heq, hkk]
    · simp [alookup, ih]

theorem alookup_mem {α : Type} {m : List (Bytes × α)} {k : Bytes} {v : α}
    (h : alookup m k = some v) : (k, v) ∈ m := by
  induction m with
  | nil => simp [alookup] at h
  | cons e t ih =>
    by_cases he : e.1 = k
    · simp only [alookup, if_pos he, Option.some.injEq] at h
      subst h
      subst he
      exact List.mem_cons_self _ _
    · simp only [alookup, if_neg he] at h
      exact List.mem_cons_of_mem _ (ih h)

theorem alookup_none_key {α : Type} {m : List (Bytes × α)} {k : Bytes}
    (h : alookup m k = none) : ∀ p ∈ m, p.1 ≠ k := by
  induction m with
  | nil => intro p hp; cases hp
  | cons e t ih =>
    intro p hp
    by_cases he : e.1 = k
    · simp [alookup, he] at h
    · rcases List.mem_cons.mp hp with rfl | hp2
      · exact he
      · simp only [alookup, if_neg he] at h
        exact ih h p hp2

theorem mem_ainsert {α : Type} {m : List (Bytes × α)} {k : Bytes} {v : α}
    {p : Bytes × α} (h : p ∈ ainsert m k v) : p = (k, v) ∨ p ∈ m := by
  induction m with
  | nil => simpa [ainsert] using h
  | cons e t ih =>
    simp only [ainsert] at h
    split at h
    · rcases List.mem_cons.mp h with rfl | h2
      · exact Or.inl rfl
      · exact Or.inr h2
    · split at h
      · rcases List.mem_cons.mp h with rfl | h2
        · exact Or.inl rfl
        · exact Or.inr (List.mem_cons_of_mem _ h2)
      · rcases List.mem_cons.mp h with rfl | h2
        · exact Or.inr (List.mem_cons_self _ _)
        · rcases ih h2 with h3 | h3
          · exact Or.inl h3
          · exact Or.inr (List.mem_cons_of_mem _ h3)

theorem mem_aupdate {α : Type} {m : List (Bytes × α)} {k : Bytes} {v : α}
    {p : Bytes × α} (h : p ∈ aupdate m k v) :
    p ∈ m ∨ (p = (k, v) ∧ ∃ w, (k, w) ∈ m) := by
  induction m with
  | nil => simp [aupdate] at h
  | cons e t ih =>
    simp only [aupdate] at h
    split at h
    · next heq =>
      rcases List.mem_cons.mp h with rfl | h2
      · refine Or.inr ⟨rfl, e.2, ?_⟩
        subst heq
        exact List.mem_cons_self _ _
      · exact Or.inl (List.mem_cons_of_mem _ h2)
    · rcases List.mem_cons.mp h with rfl | h2
      · exact Or.inl (List.mem_cons_self _ _)
      · rcases ih h2 with h3 | ⟨h3, w, h4⟩
        · exact Or.inl (List.mem_cons_of_mem _ h3)
        · exact Or.inr ⟨h3, w, List.mem_cons_of_mem _ h4⟩

theorem pairwise_ainsert {α : Type} {m : List (Bytes × α)}
    (hs : m.Pairwise entryLt) (k : Bytes) (v : α) :
    (ainsert m k v).Pairwise entryLt := by
  induction m with
  | nil => simp [ainsert]
  | cons e t ih =>
    rcases List.pairwise_cons.mp hs with ⟨he, ht⟩
    simp only [ainsert]
    split
    · next hlt =>
      refine List.pairwise_cons.mpr ⟨?_, hs⟩
      intro p hp
      rcases List.mem_cons.mp hp with rfl | hp2
      · exact hlt
      · exact bytesLt_trans hlt (he p hp2)
    · split
      · next _ heq =>
        refine List.pairwise_cons.mpr ⟨?_, ht⟩
        intro p hp
        exact heq ▸ he p hp
      · next hnlt hne =>
        refine List.pairwise_cons.mpr ⟨?_, ih ht⟩
        intro p hp
        rcases mem_ainsert hp with rfl | hp2
        · rcases bytesLt_total k e.1 with h | h | h
          · exact absurd h.symm hne
          · exact absurd h (by simp_all)
          · exact h
        · exact he p hp2

theorem pairwise_aupdate {α : Type} {m : List (Bytes × α)}
    (hs : m.Pairwise entryLt) (k : Bytes) (v : α) :
    (aupdate m k v).Pairwise entryLt := by
  induction m with
  | nil => simp [aupdate]
  | cons e t ih =>
    rcases List.pairwise_cons.mp hs with ⟨he, ht⟩
    simp only [aupdate]
    split
    · next heq =>
      refine List.pairwise_cons.mpr ⟨?_, ht⟩
      intro p hp
      exact heq ▸ he p hp
    · refine List.pairwise_cons.mpr ⟨?_, ih ht⟩
      intro p hp
      rcases mem_aupdate hp with hp2 | ⟨rfl, w, h4⟩
      · exact he p hp2
      · exact he (k, w) h4

theorem alookup_of_mem_pairwise {α : Type} {m : List (Bytes × α)}
    (hs : m.Pairwise entryLt) {k : Bytes} {v : α} (h : (k, v) ∈ m) :
    alookup m k = some v := by
  induction m with
  | nil => cases h
  | cons e t ih =>
    rcases List.pairwise_cons.mp hs with ⟨he, ht⟩
    rcases List.mem_cons.mp h with rfl | h2
    · simp [alookup]
    · have hlt : bytesLt e.1 k = true := he (k, v) h2
      have hne : e.1 ≠ k := by
        intro hh
        rw [hh] at hlt
        simp [bytesLt_irrefl] at hlt
      simp only [alookup, if_neg hne]
      exact ih ht h2

/-! ## Sorting lemmas -/

theorem sortedNatB_tail {a : Nat} {t : List Nat}
    (h : sortedNatB (a :: t) = true) : sortedNatB t = true := by
  cases t with
  | nil => rfl
  | cons b u =>
    simp only [sortedNatB, Bool.and_eq_true] at h
    exact h.2

theorem insNat_sorted_id {a : Nat} {t : List Nat}
    (h : sortedNatB (a :: t) = true) : insNat a t = a :: t := by
  cases t with
  | nil => rfl
  | cons b u =>
    simp only [sortedNatB, Bool.and_eq_true, decide_eq_true_eq] at h
    simp [insNat, h.1]

theorem sortNat_sorted_id {l : List Nat} (h : sortedNatB l = true) :
    sortNat l = l := by
  induction l with
  | nil => rfl
  | cons a t ih =>
    simp only [sortNat]
    rw [ih (sortedNatB_tail h), insNat_sorted_id h]

/-! ## The extrinsic-index fold: characterization -/

theorem alookup_extStep_ne (b : BackendM) (c : OverlayedChanges)
    (sk : Option Bytes) (m : List (Bytes × List Nat))
    {e : Bytes × OverlayedValue} {k : Bytes} (h : e.1 ≠ k) :
    alookup (extStep b c sk m e) k = alookup m k := by
  unfold extStep
  split
  · exact alookup_aupdate_ne m _ (fun hh => h hh.symm)
  · split
    · rfl
    · exact alookup_ainsert_ne m _ (fun hh => h hh.symm)

theorem alookup_extFold_ne (b : BackendM) (c : OverlayedChanges)
    (sk : Option Bytes) (es : List (Bytes × OverlayedValue))
    (m : List (Bytes × List Nat)) {k : Bytes} (h : ∀ e ∈ es, e.1 ≠ k) :
    alookup (es.foldl (extStep b c sk) m) k = alookup m k := by
  induction es generalizing m with
  | nil => rfl
  | cons e t ih =>
    simp only [List.foldl_cons]
    rw [ih _ (fun e' he' => h e' (List.mem_cons_of_mem _ he')),
      alookup_extStep_ne b c sk m (h e (List.mem_cons_self _ _))]

theorem alookup_extFold_drop (b : BackendM) (c : OverlayedChanges)
    (sk : Option Bytes) {k : Bytes} (hd : tempDrop b c sk k = true)
    (es : List (Bytes × OverlayedValue)) (m : List (Bytes × List Nat))
    (hm : alookup m k = none) :
    alookup (es.foldl (extStep b c sk) m) k = none := by
  induction es generalizing m with
  | nil => exact hm
  | cons e t ih =>
    simp only [List.foldl_cons]
    apply ih
    by_cases he : e.1 = k
    · subst he
      simp only [extStep, hm, hd, if_true]
    · rw [alookup_extStep_ne b c sk m he]
      exact hm

theorem alookup_extFold_char (b : BackendM) (c : OverlayedChanges)
    (sk : Option Bytes) {k : Bytes} (P : List (Bytes × OverlayedValue))
    (hnd : (P.map Prod.fst).Nodup) (m : List (Bytes × List Nat)) :
    alookup ((P.filter (fun e => e.2.extrinsics.isSome)).foldl (extStep b c sk) m) k =
      match alookup P k with
      | some ov =>
        if ov.extrinsics.isSome then
          match alookup m k with
          | some v1 => some (sortNat (v1 ++ ov.extrinsics.getD []))
          | none =>
            if tempDrop b c sk k then none else some (ov.extrinsics.getD [])
        else alookup m k
      | none => alookup m k := by
  induction P generalizing m with
  | nil => simp [alookup]
  | cons e t ih =>
    rw [List.map_cons] at hnd
    have hnotin : e.1 ∉ t.map Prod.fst := (List.nodup_cons.mp hnd).1
    have hnd_t : (t.map Prod.fst).Nodup := (List.nodup_cons.mp hnd).2
    have hallne : ∀ e' ∈ t.filter (fun x => x.2.extrinsics.isSome), e'.1 ≠ e.1 := by
      intro e' he' hh
      exact hnotin (hh ▸ List.mem_map_of_mem Prod.fst (List.mem_of_mem_filter he'))
    by_cases he : e.1 = k
    · subst he
      have hPk : alookup (e :: t) e.1 = some e.2 := by simp [alookup]
      rw [hPk]
      cases hp : e.2.extrinsics.isSome with
      | false =>
        have hfilter : (e :: t).filter (fun x => x.2.extrinsics.isSome) =
            t.filter (fun x => x.2.extrinsics.isSome) := by
          simp [List.filter_cons, hp]
        rw [hfilter, alookup_extFold_ne _ _ _ _ _ hallne]
        simp [hp]
      | true =>
        have hfilter : (e :: t).filter (fun x => x.2.extrinsics.isSome) =
            e :: t.filter (fun x => x.2.extrinsics.isSome) := by
          simp [List.filter_cons, hp]
        rw [hfilter, List.foldl_cons, alookup_extFold_ne _ _ _ _ _ hallne]
        simp only [extStep]
        cases hm : alookup m e.1 with
        | some v1 => simp [alookup_aupdate_self, hm, hp]
        | none =>
          cases hdrop : tempDrop b c sk e.1 with
          | true => simp [hm, hdrop, hp]
          | false => simp [hm, hdrop, hp, alookup_ainsert_self]
    · have hPk : alookup (e :: t) k = alookup t k := by simp [alookup, he]
      rw [hPk]
      cases hp : e.2.extrinsics.isSome with
      | false =>
        have hfilter : (e :: t).filter (fun x => x.2.extrinsics.isSome) =
            t.filter (fun x => x.2.extrinsics.isSome) := by
          simp [List.filter_cons, hp]
        rw [hfilter]
        exact ih hnd_t m
      | true =>
        have hfilter : (e :: t).filter (fun x => x.2.extrinsics.isSome) =
            e :: t.filter (fun x => x.2.extrinsics.isSome) := by
          simp [List.filter_cons, hp]
        rw [hfilter, List.foldl_cons, ih hnd_t (extStep b c sk m e)]
        simp only [alookup_extStep_ne b c sk m he]

theorem pairwise_extStep (b : BackendM) (c : OverlayedChanges)
    (sk : Option Bytes) {m : List (Bytes × List Nat)}
    (hs : m.Pairwise entryLt) (e : Bytes × OverlayedValue) :
    (extStep b c sk m e).Pairwise entryLt := by
  unfold extStep
  split
  · exact pairwise_aupdate hs _ _
  · split
    · exact hs
    · exact pairwise_ainsert hs _ _

theorem pairwise_extFold (b : BackendM) (c : OverlayedChanges)
    (sk : Option Bytes) (es : List (Bytes × OverlayedValue))
    {m : List (Bytes × List Nat)} (hs : m.Pairwise entryLt) :
    (es.foldl (extStep b c sk) m).Pairwise entryLt := by
  induction es generalizing m with
  | nil => exact hs
  | cons e t ih => exact ih (pairwise_extStep b c sk hs e)

/-! ## The digest fold: sortedness -/

theorem pairwise_insertToMap {a : Nat} {m : List (Bytes × List Nat)}
    (hs : m.Pairwise entryLt) (key : Bytes) :
    (insertToMap a m key).Pairwise entryLt := by
  unfold insertToMap
  split
  · exact pairwise_ainsert hs _ _
  · split
    · exact hs
    · exact pairwise_aupdate hs _ _

theorem pairwise_insertFold {a : Nat} (keys : List Bytes)
    {m : List (Bytes × List Nat)} (hs : m.Pairwise entryLt) :
    (keys.foldl (insertToMap a) m).Pairwise entryLt := by
  induction keys generalizing m with
  | nil => exact hs
  | cons x t ih => exact ih (pairwise_insertToMap hs x)

theorem digestStep_pairwise {storage : CTStorage}
    {acc acc' : List (Bytes × List Nat) × List (Bytes × List (Bytes × List Nat))}
    {a : Nat} (h : digestStep storage acc a = .ok acc')
    (hs : acc.1.Pairwise entryLt) : acc'.1.Pairwise entryLt := by
  unfold digestStep at h
  cases hr : storage.root a with
  | none => rw [hr] at h; cases h
  | some trieRoot =>
    rw [hr] at h
    simp only [Except.ok.injEq] at h
    rw [← h]
    exact pairwise_insertFold _ (pairwise_insertFold _ hs)

theorem digestFoldM_pairwise (storage : CTStorage) (bs : List Nat)
    (acc : List (Bytes × List Nat) × List (Bytes × List (Bytes × List Nat)))
    (m' : List (Bytes × List Nat))
    (cm' : List (Bytes × List (Bytes × List Nat)))
    (h : bs.foldlM (digestStep storage) acc = .ok (m', cm'))
    (hs : acc.1.Pairwise entryLt) : m'.Pairwise entryLt := by
  induction bs generalizing acc with
  | nil =>
    simp only [List.foldlM_nil, pure, Except.pure, Except.ok.injEq] at h
    subst h
    exact hs
  | cons a t ih =>
    simp only [List.foldlM_cons] at h
    cases hst : digestStep storage acc a with
    | error e =>
      rw [hst] at h
      simp [bind, Except.bind] at h
    | ok acc2 =>
      rw [hst] at h
      simp only [bind, Except.bind] at h
      exact ih acc2 h (digestStep_pairwise hst hs)

/-! ## Encoding round trips (claim C9) -/

theorem decodeU64_encodeU64 (n : Nat) (h : n < 2 ^ 64) (r : Bytes) :
    decodeU64 (encodeU64 n ++ r) = some (n, r) := by
  simp only [encodeU64, List.cons_append, List.nil_append, decodeU64]
  refine congrArg some (Prod.ext ?_ rfl)
  simp only
  omega

theorem compactDec_compactEnc (n : Nat) (h : n < 2 ^ 32) (r : Bytes) :
    compactDec (compactEnc n ++ r) = some (n, r) := by
  unfold compactEnc
  split
  · next h1 =>
    simp only [List.cons_append, List.nil_append, compactDec]
    have : 4 * n % 4 = 0 := by omega
    rw [this]
    refine congrArg some (Prod.ext ?_ rfl)
    simp only
    omega
  · next h1 =>
    split
    · next h2 =>
      simp only [List.cons_append, List.nil_append, compactDec]
      have : (4 * n + 1) % 256 % 4 = 1 := by omega
      rw [this]
      refine congrArg some (Prod.ext ?_ rfl)
      simp only
      omega
    · next h2 =>
      split
      · next h3 =>
        simp only [List.cons_append, List.nil_append, compactDec]
        have : (4 * n + 2) % 256 % 4 = 2 := by omega
        rw [this]
        refine congrArg some (Prod.ext ?_ rfl)
        simp only
        omega
      · next h3 =>
        simp only [List.cons_append, List.nil_append, compactDec]
        norm_num
        omega

theorem decodeBytes_encodeBytes (k : Bytes) (h : k.length < 2 ^ 32)
    (r : Bytes) : decodeBytes (encodeBytes k ++ r) = some (k, r) := by
  unfold encodeBytes decodeBytes
  rw [List.append_assoc, compactDec_compactEnc k.length h (k ++ r)]
  have hle : k.length ≤ (k ++ r).length := by
    simp [List.length_append]
  simp only [hle, if_true, List.take_left, List.drop_left]

/-- C9: decoding the canonical encoding of an `InputKey` (tag byte, the
encoded block, the length-prefixed key) returns the original key with no
input left over: decode composed with encode is the identity, for every
block number representable as `u64` and key length representable in the
compact length prefix. -/
theorem inputKey_decode_encode (ik : InputKey) (hb : ik.block < 2 ^ 64)
    (hk : ik.keyBytes.length < 2 ^ 32) :
    decodeInputKey (encodeInputKey ik) = some (ik, []) := by
  cases ik with
  | extrinsicIndex b k =>
    simp only [InputKey.block] at hb
    simp only [InputKey.keyBytes] at hk
    have h2 := decodeBytes_encodeBytes k hk []
    rw [List.append_nil] at h2
    simp [encodeInputKey, decodeInputKey, decodeU64_encodeU64 b hb, h2]
  | digestIndex b k =>
    simp only [InputKey.block] at hb
    simp only [InputKey.keyBytes] at hk
    have h2 := decodeBytes_encodeBytes k hk []
    rw [List.append_nil] at h2
    simp [encodeInputKey, decodeInputKey, decodeU64_encodeU64 b hb, h2]
  | childIndex b sk =>
    simp only [InputKey.block] at hb
    simp only [InputKey.keyBytes] at hk
    have h2 := decodeBytes_encodeBytes sk hk []
    rw [List.append_nil] at h2
    simp [encodeInputKey, decodeInputKey, decodeU64_encodeU64 b hb, h2]

/-- Witness for C9 at a concrete input key. -/
theorem inputKey_decode_encode_witness :
    decodeInputKey (encodeInputKey (.extrinsicIndex 42 [7, 8])) =
      some (.extrinsicIndex 42 [7, 8], []) :=
  inputKey_decode_encode (.extrinsicIndex 42 [7, 8]) (by decide) (by decide)

/-! ## Skewed digest block selection (claim C4) -/

/-- C4: when the configuration deactivates exactly at the block being
built, `prepare_digest_input` enumerates ancestors for the end block of
the next-greater digest range containing the current block; in every
other case it enumerates for the current block itself. -/
theorem prepareDigestInput_skewed (dbi : DigestBuildIter)
    (config : ConfigurationRange) (block : Nat) (storage : CTStorage) :
    (config.endBlock = some block →
      ∀ lo hi, nextMaxLevelDigestRange config.config config.zero block = some (lo, hi) →
        prepareDigestInput dbi config block storage =
          prepareDigestInputFold dbi config block storage hi) ∧
    (config.endBlock ≠ some block →
      prepareDigestInput dbi config block storage =
        prepareDigestInputFold dbi config block storage block) := by
  constructor
  · intro hend lo hi hmax
    unfold prepareDigestInput blockForDigestOf
    rw [if_pos hend, hmax]
    rfl
  · intro hend
    unfold prepareDigestInput blockForDigestOf
    rw [if_neg hend]

/-- Witness for C4: scenario S4 with `{interval 4, levels 2}`, zero 0 and
`end = 11` at block 11 enumerates for block 12, the next level-1 digest
endpoint. -/
theorem prepareDigestInput_skewed_witness :
    prepareDigestInput fixDbiNil fixConfigEnd 11 fixStorageEmpty =
      prepareDigestInputFold fixDbiNil fixConfigEnd 11 fixStorageEmpty 12 :=
  (prepareDigestInput_skewed fixDbiNil fixConfigEnd 11 fixStorageEmpty).1
    rfl 9 12 (by decide)

/-! ## Shape of the prepared streams -/

theorem isExtFor_of_isDig {p : InputPair} (h : p.isDig = true) (k : Bytes) :
    p.isExtFor k = false := by
  cases p <;> simp_all [InputPair.isDig, InputPair.isExtFor]

theorem prepareExtInner_shape (backend : BackendM) (block : Nat)
    (changes : OverlayedChanges) (sk : Option Bytes) :
    (∀ p ∈ prepareExtrinsicsInputInner backend block changes sk, p.isExt = true) ∧
    (prepareExtrinsicsInputInner backend block changes sk).Pairwise pairKeyLt := by
  unfold prepareExtrinsicsInputInner
  constructor
  · intro p hp
    rcases List.mem_map.mp hp with ⟨e, he, rfl⟩
    rfl
  · refine List.Pairwise.map _ ?_ (pairwise_extFold _ _ _ _ List.Pairwise.nil)
    intro a b hab
    exact hab

theorem prepareExtInner_no_key (backend : BackendM) (block : Nat)
    (changes : OverlayedChanges) (sk : Option Bytes) {k : Bytes}
    (hd : tempDrop backend changes sk k = true) :
    ∀ p ∈ prepareExtrinsicsInputInner backend block changes sk,
      p.isExtFor k = false := by
  intro p hp
  unfold prepareExtrinsicsInputInner at hp
  rcases List.mem_map.mp hp with ⟨e, he, rfl⟩
  have hnone := alookup_extFold_drop backend changes sk hd
    ((((layerEntries changes sk).1 ++ (layerEntries changes sk).2).filter
      (fun e => e.2.extrinsics.isSome))) [] rfl
  have hne := alookup_none_key hnone e he
  simp [InputPair.isExtFor, hne]

theorem prepareDigestInputFold_shape (dbi : DigestBuildIter)
    (config : ConfigurationRange) (block : Nat) (storage : CTStorage)
    (bfd : Nat) (dt : List InputPair)
    (dc : List ((Nat × Bytes) × List InputPair))
    (h : prepareDigestInputFold dbi config block storage bfd = .ok (dt, dc)) :
    (∀ p ∈ dt, p.isDig = true) ∧ dt.Pairwise pairKeyLt ∧
    (∀ entry ∈ dc, ∀ p ∈ entry.2, p.isDig = true) := by
  unfold prepareDigestInputFold at h
  cases hfm : (dbi config bfd).foldlM (digestStep storage) ([], []) with
  | error e => rw [hfm] at h; cases h
  | ok mc =>
    obtain ⟨m, cm⟩ := mc
    rw [hfm] at h
    simp only [Except.ok.injEq, Prod.mk.injEq] at h
    obtain ⟨h1, h2⟩ := h
    subst h1
    subst h2
    refine ⟨?_, ?_, ?_⟩
    · intro p hp
      rcases List.mem_map.mp hp with ⟨e, he, rfl⟩
      rfl
    · refine List.Pairwise.map _ ?_
        (digestFoldM_pairwise storage _ ([], []) m cm hfm List.Pairwise.nil)
      intro a b hab
      exact hab
    · intro entry hentry p hp
      rcases List.mem_map.mp hentry with ⟨e, he, rfl⟩
      rcases List.mem_map.mp hp with ⟨i, hi, rfl⟩
      rfl

theorem prepareDigestInput_shape (dbi : DigestBuildIter)
    (config : ConfigurationRange) (block : Nat) (storage : CTStorage)
    (dt : List InputPair) (dc : List ((Nat × Bytes) × List InputPair))
    (h : prepareDigestInput dbi config block storage = .ok (dt, dc)) :
    (∀ p ∈ dt, p.isDig = true) ∧ dt.Pairwise pairKeyLt ∧
    (∀ entry ∈ dc, ∀ p ∈ entry.2, p.isDig = true) :=
  prepareDigestInputFold_shape dbi config block storage _ dt dc h

/-! ## Claim C1: top-stream ordering of prepare_input -/

/-- C1: for every backend, storage, configuration, overlay, parent and
digest enumeration, a successful `prepare_input` returns a top-trie
stream that is exactly the ExtrinsicIndex pairs in strictly ascending
key order followed by the DigestIndex pairs in strictly ascending key
order, with no other interleaving. -/
theorem prepareInput_top_ordering
    (dbi : DigestBuildIter) (backend : BackendM) (storage : CTStorage)
    (config : ConfigurationRange) (changes : OverlayedChanges)
    (parentNumber : Nat) (top : List InputPair)
    (children : List ((Nat × Bytes) × List InputPair))
    (hok : prepareInput dbi backend storage config changes parentNumber =
      .ok (top, children)) :
    ∃ e d, top = e ++ d ∧
      (∀ p ∈ e, p.isExt = true) ∧ (∀ p ∈ d, p.isDig = true) ∧
      e.Pairwise pairKeyLt ∧ d.Pairwise pairKeyLt := by
  unfold prepareInput at hok
  cases hdi : prepareDigestInput dbi config (parentNumber + 1) storage with
  | error e => rw [hdi] at hok; cases hok
  | ok dd =>
    obtain ⟨digTop, digChildren⟩ := dd
    rw [hdi] at hok
    simp only [Except.ok.injEq, Prod.mk.injEq] at hok
    obtain ⟨htop, hch⟩ := hok
    have hshape := prepareDigestInput_shape dbi config (parentNumber + 1)
      storage digTop digChildren hdi
    have hext := prepareExtInner_shape backend (parentNumber + 1) changes none
    refine ⟨prepareExtrinsicsInputInner backend (parentNumber + 1) changes none,
      digTop, ?_, hext.1, hshape.1, hext.2, hshape.2.1⟩
    rw [← htop]
    rfl

/-- Witness for C1 at a concrete build. -/
theorem prepareInput_top_ordering_witness :
    ∃ e d,
      ([InputPair.extrinsicIndex 5 [100] [0, 2, 3],
        InputPair.extrinsicIndex 5 [101] [1],
        InputPair.extrinsicIndex 5 [103] [0, 1]] : List InputPair) = e ++ d ∧
      (∀ p ∈ e, p.isExt = true) ∧ (∀ p ∈ d, p.isDig = true) ∧
      e.Pairwise pairKeyLt ∧ d.Pairwise pairKeyLt :=
  prepareInput_top_ordering fixDbiNil fixBackendAll fixStorageEmpty fixConfig
    fixChanges 4 _ [] rfl

/-! ## Claim C3: the temporary-value filter -/

theorem tempDrop_top (backend : BackendM) (changes : OverlayedChanges)
    {k : Bytes} (h1 : ∀ v, changes.storage k ≠ some (some v))
    (h2 : backend.exists_storage k = false) :
    tempDrop backend changes none k = true := by
  unfold tempDrop
  cases hs : changes.storage k with
  | none => simp [hs, h2]
  | some ov =>
    cases ov with
    | none => simp [hs, h2]
    | some v => exact absurd hs (h1 v)

theorem tempDrop_child (backend : BackendM) (changes : OverlayedChanges)
    {sk k : Bytes} (h1 : ∀ v, changes.child_storage sk k ≠ some (some v))
    (h2 : backend.exists_child_storage sk k = false) :
    tempDrop backend changes (some sk) k = true := by
  unfold tempDrop
  cases hs : changes.child_storage sk k with
  | none => simp [hs, h2]
  | some ov =>
    cases ov with
    | none => simp [hs, h2]
    | some v => exact absurd hs (h1 v)

/-- C3: a key whose effective overlay value is `none` and which the
backend reports as non-existent yields no `ExtrinsicIndex` pair in the
top stream of `prepare_input`; the analogous filter applies to every
child-trie stream through `exists_child_storage`. -/
theorem prepareInput_temporary_filter
    (dbi : DigestBuildIter) (backend : BackendM) (storage : CTStorage)
    (config : ConfigurationRange) (changes : OverlayedChanges)
    (parentNumber : Nat) (top : List InputPair)
    (children : List ((Nat × Bytes) × List InputPair)) (k : Bytes)
    (hok : prepareInput dbi backend storage config changes parentNumber =
      .ok (top, children))
    (h1 : ∀ v, changes.storage k ≠ some (some v))
    (h2 : backend.exists_storage k = false) :
    (∀ p ∈ top, p.isExtFor k = false) ∧
    (∀ sk, (∀ v, changes.child_storage sk k ≠ some (some v)) →
      backend.exists_child_storage sk k = false →
      ∀ ci str, (ci, str) ∈ children → ci.2 = sk →
        ∀ p ∈ str, p.isExtFor k = false) := by
  unfold prepareInput at hok
  cases hdi : prepareDigestInput dbi config (parentNumber + 1) storage with
  | error e => rw [hdi] at hok; cases hok
  | ok dd =>
    obtain ⟨digTop, digChildren⟩ := dd
    rw [hdi] at hok
    simp only [Except.ok.injEq, Prod.mk.injEq] at hok
    obtain ⟨htop, hch⟩ := hok
    have hshape := prepareDigestInput_shape dbi config (parentNumber + 1)
      storage digTop digChildren hdi
    constructor
    · intro p hp
      rw [← htop] at hp
      rcases List.mem_append.mp hp with hp | hp
      · exact prepareExtInner_no_key backend _ changes none
          (tempDrop_top backend changes h1 h2) p hp
      · exact isExtFor_of_isDig (hshape.1 p hp) k
    · intro sk hc1 hc2 ci str hmem hci p hp
      rw [← hch] at hmem
      rcases List.mem_append.mp hmem with hm | hm
      · rcases List.mem_map.mp hm with ⟨e, he, heq⟩
        rcases List.mem_map.mp he with ⟨sk', hsk', rfl⟩
        simp only [Prod.mk.injEq] at heq
        obtain ⟨hci2, hstr⟩ := heq
        rw [← hstr] at hp
        rcases List.mem_append.mp hp with hp2 | hp2
        · have hsk'' : sk' = sk := by
            rw [← hci2] at hci
            exact hci
          rw [hsk''] at hp2
          exact prepareExtInner_no_key backend _ changes (some sk)
            (tempDrop_child backend changes hc1 hc2) p hp2
        · cases hf : digChildren.find?
            (fun d => decide (d.1 = ((parentNumber + 1 : Nat), sk'))) with
          | none => rw [hf] at hp2; cases hp2
          | some dEntry =>
            rw [hf] at hp2
            simp only [Option.map_some', Option.getD_some] at hp2
            exact isExtFor_of_isDig
              (hshape.2.2 dEntry (List.mem_of_find?_eq_some hf) p hp2) k
      · have hmem2 := List.mem_of_mem_filter hm
        exact isExtFor_of_isDig (hshape.2.2 _ hmem2 p hp) k

/-- Witness for C3: key 110 deleted in the overlay and missing from the
backend produces no ExtrinsicIndex record. -/
theorem prepareInput_temporary_filter_witness :
    (∀ p ∈ ([] : List InputPair), p.isExtFor [110] = false) ∧
    (∀ sk, (∀ v, fixChangesTemp.child_storage sk [110] ≠ some (some v)) →
      fixBackendNone.exists_child_storage sk [110] = false →
      ∀ ci str, (ci, str) ∈ ([] : List ((Nat × Bytes) × List InputPair)) →
        ci.2 = sk → ∀ p ∈ str, p.isExtFor [110] = false) :=
  prepareInput_temporary_filter fixDbiNil fixBackendNone fixStorageEmpty
    fixConfig fixChangesTemp 4 [] [] [110] rfl
    (by
      intro v hv
      rw [show OverlayedChanges.storage fixChangesTemp [110] = some none from rfl] at hv
      exact Option.noConfusion (Option.some.inj hv))
    rfl

/-! ## Claim C2: the emitted extrinsic-index value -/

/-- C2 (counterexample to the claim as stated): when both overlay
layers record extrinsic index 1 for the same key, the emitted value is
the duplicate-retaining merge `[1, 1]`, not the duplicate-free sorted
union `[1]`. -/
theorem extIndex_value_counterexample :
    prepareExtrinsicsInputInner fixBackendAll 1 fixChangesDup none =
      [InputPair.extrinsicIndex 1 [7] [1, 1]] ∧
    ¬ ([1, 1] : List Nat).Nodup := by
  exact ⟨rfl, by decide⟩

/-- C2 (amended): for every key surviving the temporary-value filter,
the emitted `ExtrinsicIndex` value is the ascending sorted
concatenation of the committed-layer and prospective-layer extrinsic
index sets for that key — duplicates occurring in both layers are
retained (so it is the duplicate-free union exactly when the layers are
disjoint).  The hypotheses state the `HashMap`/`BTreeSet` well-formedness
of the overlay: unique keys per layer, ascending index sets. -/
theorem extIndex_value_merged (backend : BackendM) (changes : OverlayedChanges)
    (sk : Option Bytes) (block : Nat) (k : Bytes) (v : List Nat)
    (hndC : (((layerEntries changes sk).1).map Prod.fst).Nodup)
    (hndP : (((layerEntries changes sk).2).map Prod.fst).Nodup)
    (hsC : ∀ e ∈ (layerEntries changes sk).1,
      sortedNatB (e.2.extrinsics.getD []) = true)
    (hsP : ∀ e ∈ (layerEntries changes sk).2,
      sortedNatB (e.2.extrinsics.getD []) = true)
    (hmem : InputPair.extrinsicIndex block k v ∈
      prepareExtrinsicsInputInner backend block changes sk) :
    v = sortNat (layerExt (layerEntries changes sk).1 k ++
      layerExt (layerEntries changes sk).2 k) := by
  unfold prepareExtrinsicsInputInner at hmem
  rcases List.mem_map.mp hmem with ⟨e, he, heq⟩
  simp only [InputPair.extrinsicIndex.injEq, true_and] at heq
  obtain ⟨hk, hv⟩ := heq
  subst hk
  subst hv
  have hlk : alookup
      ((((layerEntries changes sk).1 ++ (layerEntries changes sk).2).filter
        (fun x => x.2.extrinsics.isSome)).foldl (extStep backend changes sk) [])
      e.1 = some e.2 :=
    alookup_of_mem_pairwise (pairwise_extFold _ _ _ _ List.Pairwise.nil) he
  rw [List.filter_append, List.foldl_append] at hlk
  have hB := @alookup_extFold_char backend changes sk e.1
    ((layerEntries changes sk).2) hndP
    ((((layerEntries changes sk).1).filter
      (fun x => x.2.extrinsics.isSome)).foldl (extStep backend changes sk) [])
  have hA := @alookup_extFold_char backend changes sk e.1
    ((layerEntries changes sk).1) hndC []
  rw [hB] at hlk
  cases hPk : alookup ((layerEntries changes sk).2) e.1 with
  | none =>
    simp only [hPk, hA] at hlk
    cases hCk : alookup ((layerEntries changes sk).1) e.1 with
    | none => simp [hCk, alookup] at hlk
    | some ovC =>
      cases hIs : ovC.extrinsics with
      | none => simp [hCk, hIs, alookup] at hlk
      | some extC =>
        cases hdrop : tempDrop backend changes sk e.1 with
        | true => simp [hCk, hIs, hdrop, alookup] at hlk
        | false =>
          simp only [hCk, hIs, hdrop, alookup, Option.isSome_some, if_true,
            Bool.false_eq_true, if_false, Option.getD_some,
            Option.some.injEq] at hlk
          have hsorted := hsC (e.1, ovC) (alookup_mem hCk)
          simp only [hIs, Option.getD_some] at hsorted
          rw [← hlk]
          simp only [layerExt, hCk, hPk, hIs, Option.getD_some, List.append_nil]
          exact (sortNat_sorted_id hsorted).symm
  | some ovP =>
    cases hIsP : ovP.extrinsics with
    | none =>
      simp only [hPk, hIsP, Option.isSome_none, Bool.false_eq_true, if_false,
        hA] at hlk
      cases hCk : alookup ((layerEntries changes sk).1) e.1 with
      | none => simp [hCk, alookup] at hlk
      | some ovC =>
        cases hIs : ovC.extrinsics with
        | none => simp [hCk, hIs, alookup] at hlk
        | some extC =>
          cases hdrop : tempDrop backend changes sk e.1 with
          | true => simp [hCk, hIs, hdrop, alookup] at hlk
          | false =>
            simp only [hCk, hIs, hdrop, alookup, Option.isSome_some, if_true,
              Bool.false_eq_true, if_false, Option.getD_some,
              Option.some.injEq] at hlk
            have hsorted := hsC (e.1, ovC) (alookup_mem hCk)
            simp only [hIs, Option.getD_some] at hsorted
            rw [← hlk]
            simp only [layerExt, hCk, hPk, hIs, hIsP, Option.getD_some,
              Option.getD_none, List.append_nil]
            exact (sortNat_sorted_id hsorted).symm
    | some extP =>
      simp only [hPk, hIsP, Option.isSome_some, if_true, hA] at hlk
      cases hCk : alookup ((layerEntries changes sk).1) e.1 with
      | none =>
        cases hdrop : tempDrop backend changes sk e.1 with
        | true => simp [hCk, hdrop, alookup] at hlk
        | false =>
          simp only [hCk, hdrop, alookup, Bool.false_eq_true, if_false,
            Option.getD_some, Option.some.injEq] at hlk
          have hsorted := hsP (e.1, ovP) (alookup_mem hPk)
          simp only [hIsP, Option.getD_some] at hsorted
          rw [← hlk]
          simp only [layerExt, hCk, hPk, hIsP, Option.getD_some, List.nil_append]
          exact (sortNat_sorted_id hsorted).symm
      | some ovC =>
        cases hIs : ovC.extrinsics with
        | none =>
          cases hdrop : tempDrop backend changes sk e.1 with
          | true => simp [hCk, hIs, hdrop, alookup] at hlk
          | false =>
            simp only [hCk, hIs, hdrop, alookup, Option.isSome_none,
              Bool.false_eq_true, if_false, Option.getD_some,
              Option.some.injEq] at hlk
            have hsorted := hsP (e.1, ovP) (alookup_mem hPk)
            simp only [hIsP, Option.getD_some] at hsorted
            rw [← hlk]
            simp only [layerExt, hCk, hPk, hIs, hIsP, Option.getD_some,
              Option.getD_none, List.nil_append]
            exact (sortNat_sorted_id hsorted).symm
        | some extC =>
          cases hdrop : tempDrop backend changes sk e.1 with
          | true => simp [hCk, hIs, hdrop, alookup] at hlk
          | false =>
            simp only [hCk, hIs, hdrop, alookup, Option.isSome_some, if_true,
              Bool.false_eq_true, if_false, Option.getD_some,
              Option.some.injEq] at hlk
            rw [← hlk]
            simp only [layerExt, hCk, hPk, hIs, hIsP, Option.getD_some]

/-- Witness for the amended C2 at a concrete overlay: key 100 is
recorded with indices {3} committed and {0, 2} prospective, and the
emitted value is their ascending merge. -/
theorem extIndex_value_merged_witness :
    ([0, 2, 3] : List Nat) =
      sortNat (layerExt (layerEntries fixChanges none).1 [100] ++
        layerExt (layerEntries fixChanges none).2 [100]) :=
  extIndex_value_merged fixBackendAll fixChanges none 5 [100] [0, 2, 3]
    (by decide) (by decide) (by decide) (by decide) (by decide)

/-! ## Rotator lemmas -/

theorem nlookup_nupsert_self (bs : List (Nat × Nat)) (k v : Nat) :
    nlookup (nupsert bs k v) k = some v := by
  induction bs with
  | nil => simp [nupsert, nlookup]
  | cons e t ih =>
    simp only [nupsert]
    split
    · simp [nlookup]
    · next hne => simp [nlookup, hne, ih]

theorem nlookup_nupsert_ne (bs : List (Nat × Nat)) {k k' : Nat} (v : Nat)
    (h : k' ≠ k) : nlookup (nupsert bs k v) k' = nlookup bs k' := by
  have hkk : ¬(k = k') := fun hh => h hh.symm
  induction bs with
  | nil => simp [nupsert, nlookup, hkk]
  | cons e t ih =>
    simp only [nupsert]
    split
    · next heq => simp [nlookup, heq, hkk]
    · simp [nlookup, ih]

theorem nlookup_banFold (hs : List Nat) (now : Nat) {h : Nat} :
    ∀ bs, nlookup (hs.foldl (fun bs h => nupsert bs h now) bs) h =
      if h ∈ hs then some now else nlookup bs h := by
  induction hs with
  | nil => intro bs; simp
  | cons x t ih =>
    intro bs
    simp only [List.foldl_cons]
    rw [ih (nupsert bs x now)]
    by_cases hxt : h ∈ t
    · simp [hxt, List.mem_cons]
    · by_cases hx : h = x
      · simp [hxt, hx, List.mem_cons, nlookup_nupsert_self]
      · simp [hxt, hx, List.mem_cons, nlookup_nupsert_ne bs now hx]

theorem rotator_ban_nlookup (r : PoolRotator) (now : Nat) (hs : List Nat)
    (h : Nat) : nlookup (r.ban now hs).bans h =
      if h ∈ hs then some now else nlookup r.bans h :=
  nlookup_banFold hs now r.bans

theorem rot_preserved_ban {r : PoolRotator} {now h : Nat} (hs : List Nat)
    (hl : nlookup r.bans h = some now) :
    nlookup ((r.ban now hs).bans) h = some now := by
  rw [rotator_ban_nlookup]
  split <;> simp [hl]

theorem rot_ban_self {r : PoolRotator} {now h : Nat} {hs : List Nat}
    (hmem : h ∈ hs) : nlookup ((r.ban now hs).bans) h = some now := by
  rw [rotator_ban_nlookup]
  simp [hmem]

theorem is_banned_of_nlookup {r : PoolRotator} {now h : Nat}
    (hl : nlookup r.bans h = some now) (httl : 0 < r.ban_ttl) :
    r.is_banned now h = true := by
  unfold PoolRotator.is_banned
  rw [hl]
  simp only [decide_eq_true_eq]
  omega

theorem nlookup_filter {bs : List (Nat × Nat)} {h t : Nat}
    (hl : nlookup bs h = some t) {P : Nat × Nat → Bool}
    (hp : P (h, t) = true) : nlookup (bs.filter P) h = some t := by
  induction bs with
  | nil => simp [nlookup] at hl
  | cons e u ih =>
    by_cases he : e.1 = h
    · simp only [nlookup, if_pos he] at hl
      cases hl
      have : e = (h, e.2) := by
        rw [← he]
      rw [this] at hp ⊢
      simp [List.filter_cons, hp, nlookup]
    · simp only [nlookup, if_neg he] at hl
      cases hpe : P e with
      | true => simp [List.filter_cons, hpe, nlookup, he, ih hl]
      | false => simp [List.filter_cons, hpe, ih hl]

theorem clear_timeouts_banned {r : PoolRotator} {now h : Nat}
    (hl : nlookup r.bans h = some now) (httl : 0 < r.ban_ttl) :
    (r.clear_timeouts now).is_banned now h = true := by
  unfold PoolRotator.clear_timeouts
  apply is_banned_of_nlookup
  · exact nlookup_filter hl (by simp only [decide_eq_true_eq]; omega)
  · exact httl

theorem ban_if_stale_rot {r : PoolRotator} (now bn : Nat) (tx : Transaction)
    {h : Nat} (hl : nlookup r.bans h = some now) :
    nlookup (r.ban_if_stale now bn tx).1.bans h = some now ∧
    (r.ban_if_stale now bn tx).1.ban_ttl = r.ban_ttl := by
  unfold PoolRotator.ban_if_stale
  split
  · exact ⟨rot_preserved_ban _ hl, rfl⟩
  · exact ⟨hl, rfl⟩

theorem banIfStaleFold_rot (now bn : Nat) (txs : List Transaction) :
    ∀ (r : PoolRotator) (rs0 : List Nat) {h : Nat},
      nlookup r.bans h = some now →
      nlookup ((txs.foldl (fun acc tx =>
        if (acc.1.ban_if_stale now bn tx).2 then
          ((acc.1.ban_if_stale now bn tx).1, acc.2 ++ [tx.hash])
        else ((acc.1.ban_if_stale now bn tx).1, acc.2)) (r, rs0)).1.bans) h
          = some now ∧
      ((txs.foldl (fun acc tx =>
        if (acc.1.ban_if_stale now bn tx).2 then
          ((acc.1.ban_if_stale now bn tx).1, acc.2 ++ [tx.hash])
        else ((acc.1.ban_if_stale now bn tx).1, acc.2)) (r, rs0)).1.ban_ttl)
          = r.ban_ttl := by
  induction txs with
  | nil => intro r rs0 h hl; exact ⟨hl, rfl⟩
  | cons tx t ih =>
    intro r rs0 h hl
    simp only [List.foldl_cons]
    have hstep := ban_if_stale_rot now bn tx hl
    cases hb : (r.ban_if_stale now bn tx).2 with
    | true =>
      simp only [hb, if_true]
      have := ih (r.ban_if_stale now bn tx).1 (rs0 ++ [tx.hash]) hstep.1
      exact ⟨this.1, this.2.trans hstep.2⟩
    | false =>
      simp only [hb, Bool.false_eq_true, if_false]
      have := ih (r.ban_if_stale now bn tx).1 rs0 hstep.1
      exact ⟨this.1, this.2.trans hstep.2⟩

theorem banIfStaleFold_rot' (now bn : Nat) (r : PoolRotator)
    (txs : List Transaction) {h : Nat} (hl : nlookup r.bans h = some now) :
    nlookup (banIfStaleFold now bn r txs).1.bans h = some now ∧
    (banIfStaleFold now bn r txs).1.ban_ttl = r.ban_ttl :=
  banIfStaleFold_rot now bn txs r [] hl

/-! ## Pool state plumbing lemmas -/

theorem notifyAndFire_rotator (s : PoolState) (im : Imported) :
    (notifyAndFire s im).rotator = s.rotator := by
  unfold notifyAndFire
  cases im <;> rfl

theorem notifyAndFire_pool (s : PoolState) (im : Imported) :
    (notifyAndFire s im).pool = s.pool := by
  unfold notifyAndFire
  cases im <;> rfl

theorem notifyAndFire_pool2 (s : PoolState) (im : Imported) :
    (notifyAndFire s im).pool2 = s.pool2 := by
  unfold notifyAndFire
  cases im <;> rfl

theorem processXt_rotator (api : ChainApi) (now bn : Nat) (atB : BlockId)
    (s : PoolState) (xt : Extrinsic) :
    (processXt api now bn atB s xt).1.rotator = s.rotator := by
  simp only [processXt]
  split
  · rfl
  · split
    · rfl
    · rfl
    · rfl
    · split
      · rfl
      · split
        · split
          · rfl
          · rw [notifyAndFire_rotator]
        · split
          · rfl
          · rw [notifyAndFire_rotator]

theorem submitAtBatch_rotator (api : ChainApi) (now bn : Nat) (atB : BlockId)
    (xts : List Extrinsic) : ∀ (s : PoolState)
      (rs0 : List (Except PoolError Nat)),
      (xts.foldl (fun acc xt =>
        ((processXt api now bn atB acc.1 xt).1,
         acc.2 ++ [(processXt api now bn atB acc.1 xt).2])) (s, rs0)).1.rotator
        = s.rotator := by
  induction xts with
  | nil => intro s rs0; rfl
  | cons x t ih =>
    intro s rs0
    simp only [List.foldl_cons]
    rw [ih]
    exact processXt_rotator api now bn atB s x

theorem submitAtBatch_rotator' (api : ChainApi) (now bn : Nat) (atB : BlockId)
    (s : PoolState) (xts : List Extrinsic) :
    (submitAtBatch api now bn atB s xts).1.rotator = s.rotator :=
  submitAtBatch_rotator api now bn atB xts s []

theorem submitAtBatch_length (api : ChainApi) (now bn : Nat) (atB : BlockId)
    (xts : List Extrinsic) : ∀ (s : PoolState)
      (rs0 : List (Except PoolError Nat)),
      (xts.foldl (fun acc xt =>
        ((processXt api now bn atB acc.1 xt).1,
         acc.2 ++ [(processXt api now bn atB acc.1 xt).2])) (s, rs0)).2.length
        = rs0.length + xts.length := by
  induction xts with
  | nil => intro s rs0; rfl
  | cons x t ih =>
    intro s rs0
    simp only [List.foldl_cons]
    rw [ih]
    simp
    omega

theorem rot_ban_nil (r : PoolRotator) (now : Nat) : r.ban now [] = r := rfl

theorem enforceLimitsByPool_rotator (opts : Options) (now : Nat)
    (s : PoolState) (up : Bool) :
    (enforceLimitsByPool opts now s up).1.rotator =
      s.rotator.ban now (enforceLimitsByPool opts now s up).2 := by
  cases up with
  | false =>
    by_cases hex : (opts.ready.is_exceeded s.pool.status.ready
          s.pool.status.ready_bytes
        || opts.future.is_exceeded s.pool.status.future
          s.pool.status.future_bytes) = true
    · simp [enforceLimitsByPool, hex]
    · simp [enforceLimitsByPool, hex, rot_ban_nil]
  | true =>
    by_cases hex : (opts.ready.is_exceeded s.pool2.status.ready
          s.pool2.status.ready_bytes
        || opts.future.is_exceeded s.pool2.status.future
          s.pool2.status.future_bytes) = true
    · simp [enforceLimitsByPool, hex]
    · simp [enforceLimitsByPool, hex, rot_ban_nil]

theorem enforceLimitsByPool_ttl (opts : Options) (now : Nat) (s : PoolState)
    (up : Bool) : (enforceLimitsByPool opts now s up).1.rotator.ban_ttl =
      s.rotator.ban_ttl := by
  rw [enforceLimitsByPool_rotator]
  rfl

theorem enforceLimits_banned (opts : Options) (now : Nat) (s : PoolState)
    {h : Nat} (httl : 0 < s.rotator.ban_ttl)
    (hmem : h ∈ (enforceLimits opts now s).2) :
    (enforceLimits opts now s).1.rotator.is_banned now h = true := by
  apply is_banned_of_nlookup
  · show nlookup (enforceLimitsByPool opts now
      (enforceLimitsByPool opts now s false).1 true).1.rotator.bans h = some now
    rw [enforceLimitsByPool_rotator opts now
      (enforceLimitsByPool opts now s false).1 true]
    rcases List.mem_append.mp hmem with hm | hm
    · apply rot_preserved_ban
      rw [enforceLimitsByPool_rotator opts now s false]
      exact rot_ban_self hm
    · exact rot_ban_self hm
  · show 0 < (enforceLimitsByPool opts now
      (enforceLimitsByPool opts now s false).1 true).1.rotator.ban_ttl
    rw [enforceLimitsByPool_ttl, enforceLimitsByPool_ttl]
    exact httl

theorem enforceLimits_rot_preserved (opts : Options) (now : Nat)
    (s : PoolState) {h : Nat} (hl : nlookup s.rotator.bans h = some now) :
    nlookup (enforceLimits opts now s).1.rotator.bans h = some now ∧
    (enforceLimits opts now s).1.rotator.ban_ttl = s.rotator.ban_ttl := by
  constructor
  · show nlookup (enforceLimitsByPool opts now
      (enforceLimitsByPool opts now s false).1 true).1.rotator.bans h = some now
    rw [enforceLimitsByPool_rotator]
    apply rot_preserved_ban
    rw [enforceLimitsByPool_rotator]
    exact rot_preserved_ban _ hl
  · show (enforceLimitsByPool opts now
      (enforceLimitsByPool opts now s false).1 true).1.rotator.ban_ttl = _
    rw [enforceLimitsByPool_ttl, enforceLimitsByPool_ttl]

/-! ## Claim C8: error surface of submit_at -/

/-- C8: every per-transaction failure of `submit_at` is a per-element
result; the call as a whole fails only when the block id cannot be
resolved to a number (yielding `InvalidBlockId` when the api returns no
number, or propagating the api's own resolution error), and on success
the result vector has one entry per submitted extrinsic. -/
theorem submitAt_whole_error (api : ChainApi) (opts : Options) (now : Nat)
    (s : PoolState) (atB : BlockId) (xts : List Extrinsic) :
    (∀ e, submit_at api opts now s atB xts = .error e →
      api.block_id_to_number atB = .error e ∨
        (api.block_id_to_number atB = .ok none ∧ e = .invalidBlockId)) ∧
    (∀ bn, api.block_id_to_number atB = .ok (some bn) →
      ∃ st rs, submit_at api opts now s atB xts = .ok (st, rs) ∧
        rs.length = xts.length) := by
  constructor
  · intro e he
    unfold submit_at at he
    cases hb : api.block_id_to_number atB with
    | error e2 =>
      rw [hb] at he
      cases he
      exact Or.inl rfl
    | ok ob =>
      cases ob with
      | none =>
        rw [hb] at he
        cases he
        exact Or.inr ⟨rfl, rfl⟩
      | some bn =>
        rw [hb] at he
        cases he
  · intro bn hb
    refine ⟨(enforceLimits opts now (submitAtBatch api now bn atB s xts).1).1,
      (submitAtBatch api now bn atB s xts).2.map (fun r =>
        match r with
        | .ok h =>
          if (enforceLimits opts now
              (submitAtBatch api now bn atB s xts).1).2.contains h
          then .error .immediatelyDropped else .ok h
        | .error e => .error e), ?_, ?_⟩
    · unfold submit_at
      rw [hb]
    · rw [List.length_map]
      simpa using submitAtBatch_length api now bn atB xts s []

/-- Witness for C8 at a concrete api and batch. -/
theorem submitAt_whole_error_witness :
    ∃ st rs, submit_at fixApi2 fixOptions 7 fixPoolState (.number 0)
      [⟨1, none⟩, ⟨2, some true⟩] = .ok (st, rs) ∧ rs.length = 2 :=
  (submitAt_whole_error fixApi2 fixOptions 7 fixPoolState (.number 0)
    [⟨1, none⟩, ⟨2, some true⟩]).2 0 rfl

/-! ## Claim C10: saturating valid_till -/

/-- C10: `valid_till` is computed by saturating the block number into
`u64` and saturating-adding the longevity, so when the sum would exceed
`u64::MAX` the transaction stored by `submit_at` carries
`valid_till = u64::MAX` instead of a wrapped-around value. -/
theorem submitAt_validTill_saturates (bn lon : Nat)
    (h : 2 ^ 64 - 1 < bn + lon) :
    ∃ st rs, submit_at (fixApi bn lon) fixOptions 0 fixPoolState
      (.number 0) [⟨5, none⟩] = .ok (st, rs) ∧
      (poolReady st).map (fun t => t.valid_till) = [computeValidTill bn lon] ∧
      computeValidTill bn lon = 2 ^ 64 - 1 := by
    refine ⟨_, _, rfl, rfl, ?_⟩
    unfold computeValidTill satAddU64 satU64
    omega

/-! ## Claim C6: immediately-dropped admissions are banned -/

/-- C6: a transaction admitted by the batch phase of `submit_at` whose
hash is then evicted by the limit enforcement running after the batch
has its per-element result rewritten to `ImmediatelyDropped`, and its
hash is banned in the rotator of the returned state. -/
theorem submitAt_dropped_banned (api : ChainApi) (opts : Options)
    (now : Nat) (s : PoolState) (atB : BlockId) (xts : List Extrinsic)
    (bn i h : Nat) (httl : 0 < s.rotator.ban_ttl)
    (hbn : api.block_id_to_number atB = .ok (some bn))
    (hres : (submitAtBatch api now bn atB s xts).2[i]? = some (.ok h))
    (hrem : h ∈ (enforceLimits opts now
      (submitAtBatch api now bn atB s xts).1).2) :
    ∃ st rs, submit_at api opts now s atB xts = .ok (st, rs) ∧
      rs[i]? = some (.error .immediatelyDropped) ∧
      st.rotator.is_banned now h = true := by
  refine ⟨(enforceLimits opts now (submitAtBatch api now bn atB s xts).1).1,
    (submitAtBatch api now bn atB s xts).2.map (fun r =>
      match r with
      | .ok h2 =>
        if (enforceLimits opts now
            (submitAtBatch api now bn atB s xts).1).2.contains h2
        then .error .immediatelyDropped else .ok h2
      | .error e => .error e), ?_, ?_, ?_⟩
  · unfold submit_at
    rw [hbn]
  · rw [List.getElem?_map, hres]
    simp only [Option.map_some']
    have hcon := List.elem_eq_true_of_mem hrem
    simp [hcon]
    exact hrem
  · apply enforceLimits_banned
    · rw [submitAtBatch_rotator' api now bn atB s xts]
      exact httl
    · exact hrem

/-- Witness for C6: with zero limits, the single admitted transaction is
evicted, reported as immediately dropped, and banned. -/
theorem submitAt_dropped_banned_witness :
    ∃ st rs, submit_at fixApi2 fixOptionsZero 0 fixPoolState (.number 0)
      [⟨1, none⟩] = .ok (st, rs) ∧
      rs[0]? = some (.error .immediatelyDropped) ∧
      st.rotator.is_banned 0 1 = true :=
  submitAt_dropped_banned fixApi2 fixOptionsZero 0 fixPoolState (.number 0)
    [⟨1, none⟩] 0 0 1 (by decide) rfl rfl (by decide)

/-! ## Claim C5: the second pool partition -/

theorem promoteStep_ready_mono {p : BasePool} {t : Transaction}
    (ht : t ∈ p.ready) : t ∈ (promoteStep p).1.ready := by
  unfold promoteStep
  split
  · exact List.mem_append_left _ ht
  · exact ht

theorem promoteAll_ready_mono : ∀ (n : Nat) (p : BasePool) (acc : List Nat)
    {t : Transaction}, t ∈ p.ready → t ∈ (promoteAll n p acc).1.ready := by
  intro n
  induction n with
  | zero => intro p acc t ht; exact ht
  | succ m ih =>
    intro p acc t ht
    simp only [promoteAll]
    split
    · next p2 hh heq =>
      apply ih
      have h2 := promoteStep_ready_mono ht
      rw [heq] at h2
      exact h2
    · next p2 heq =>
      have h2 := promoteStep_ready_mono ht
      rw [heq] at h2
      exact h2

theorem importTx_mem {p : BasePool} {tx : Transaction} {p' : BasePool}
    {im : Imported} (h : p.importTx tx = .ok (p', im)) :
    im.hash = tx.hash ∧
    ∃ t, (t ∈ p'.ready ∨ t ∈ p'.future) ∧ t.hash = tx.hash := by
  simp only [BasePool.importTx] at h
  split at h
  · cases h
  · split at h
    · split at h
      · cases h
      · simp only [Except.ok.injEq, Prod.mk.injEq] at h
        obtain ⟨hp', him⟩ := h
        subst hp'
        subst him
        refine ⟨rfl, tx, Or.inl ?_, rfl⟩
        exact promoteAll_ready_mono _ _ _
          (List.mem_append_right _ (List.mem_singleton.mpr rfl))
    · simp only [Except.ok.injEq, Prod.mk.injEq] at h
      obtain ⟨hp', him⟩ := h
      subst hp'
      subst him
      exact ⟨rfl, tx, Or.inr (List.mem_append_right _
        (List.mem_singleton.mpr rfl)), rfl⟩

theorem evictList_mem (lim : Limit) : ∀ (n : Nat) (l : List Transaction)
    {t : Transaction}, t ∈ l →
    t ∈ (evictList lim n l).1 ∨ t ∈ (evictList lim n l).2 := by
  intro n
  induction n with
  | zero => intro l t ht; exact Or.inl ht
  | succ m ih =>
    intro l t ht
    simp only [evictList]
    split
    · split
      · next w heq =>
        by_cases hw : t = w
        · subst hw
          exact Or.inr (List.mem_cons_self _ _)
        · have h2 : t ∈ l.erase w := (List.mem_erase_of_ne hw).mpr ht
          rcases ih (l.erase w) h2 with h3 | h3
          · exact Or.inl h3
          · exact Or.inr (List.mem_cons_of_mem _ h3)
      · exact Or.inl ht
    · exact Or.inl ht

theorem evictList_subset (lim : Limit) : ∀ (n : Nat) (l : List Transaction)
    {t : Transaction}, t ∈ (evictList lim n l).1 → t ∈ l := by
  intro n
  induction n with
  | zero => intro l t ht; exact ht
  | succ m ih =>
    intro l t ht
    simp only [evictList] at ht
    split at ht
    · split at ht
      · exact List.mem_of_mem_erase (ih _ ht)
      · exact ht
    · exact ht

theorem enforce_limits_keep {p : BasePool} {rl fl : Limit} {t : Transaction}
    (ht : t ∈ p.ready ∨ t ∈ p.future)
    (hnot : ∀ u ∈ (p.enforce_limits rl fl).2, u.hash ≠ t.hash) :
    t ∈ (p.enforce_limits rl fl).1.ready ∨
    t ∈ (p.enforce_limits rl fl).1.future := by
  rcases ht with h1 | h1
  · rcases evictList_mem rl p.ready.length p.ready h1 with h2 | h2
    · exact Or.inl h2
    · exact absurd rfl (hnot t (List.mem_append_left _ h2))
  · rcases evictList_mem fl p.future.length p.future h1 with h2 | h2
    · exact Or.inr h2
    · exact absurd rfl (hnot t (List.mem_append_right _ h2))

theorem iteTT {α : Type _} (a b : α) : (if true = true then a else b) = a := rfl

theorem iteFT {α : Type _} (a b : α) : (if false = true then a else b) = b := rfl

theorem enforceLimitsByPool_pool_of_true (opts : Options) (now : Nat)
    (s : PoolState) : (enforceLimitsByPool opts now s true).1.pool = s.pool := by
  by_cases hex : (opts.ready.is_exceeded s.pool2.status.ready
        s.pool2.status.ready_bytes
      || opts.future.is_exceeded s.pool2.status.future
        s.pool2.status.future_bytes) = true
  · simp [enforceLimitsByPool, hex]
  · simp [enforceLimitsByPool, hex]

theorem enforceLimitsByPool_pool2_of_false (opts : Options) (now : Nat)
    (s : PoolState) :
    (enforceLimitsByPool opts now s false).1.pool2 = s.pool2 := by
  by_cases hex : (opts.ready.is_exceeded s.pool.status.ready
        s.pool.status.ready_bytes
      || opts.future.is_exceeded s.pool.status.future
        s.pool.status.future_bytes) = true
  · simp [enforceLimitsByPool, hex]
  · simp [enforceLimitsByPool, hex]

theorem enforceLimitsByPool_ready_subset_false (opts : Options) (now : Nat)
    (s : PoolState) {t : Transaction}
    (ht : t ∈ (enforceLimitsByPool opts now s false).1.pool.ready) :
    t ∈ s.pool.ready := by
  simp only [enforceLimitsByPool, BasePool.enforce_limits, iteFT,
    Bool.false_eq_true, if_false] at ht
  split at ht
  · exact evictList_subset opts.ready _ _ ht
  · exact ht

theorem enforceLimitsByPool_pool2_keep (opts : Options) (now : Nat)
    (s : PoolState) {t : Transaction}
    (ht : t ∈ s.pool2.ready ∨ t ∈ s.pool2.future)
    (hnot : t.hash ∉ (enforceLimitsByPool opts now s true).2) :
    t ∈ (enforceLimitsByPool opts now s true).1.pool2.ready ∨
    t ∈ (enforceLimitsByPool opts now s true).1.pool2.future := by
  by_cases hex : (opts.ready.is_exceeded s.pool2.status.ready
        s.pool2.status.ready_bytes
      || opts.future.is_exceeded s.pool2.status.future
        s.pool2.status.future_bytes) = true
  · simp only [enforceLimitsByPool, iteTT, if_true, hex] at hnot ⊢
    apply enforce_limits_keep ht
    intro u hu hh
    exact hnot (hh ▸ List.mem_map_of_mem (fun t => t.hash) hu)
  · have hred : enforceLimitsByPool opts now s true = (s, []) := by
      simp only [enforceLimitsByPool, iteTT, if_true]
      exact if_neg hex
    rw [hred]
    exact ht

theorem enforceLimits_pool_ready_subset (opts : Options) (now : Nat)
    (s : PoolState) {t : Transaction}
    (ht : t ∈ (enforceLimits opts now s).1.pool.ready) : t ∈ s.pool.ready := by
  apply enforceLimitsByPool_ready_subset_false opts now s
  have hb : (enforceLimits opts now s).1.pool =
      (enforceLimitsByPool opts now s false).1.pool :=
    enforceLimitsByPool_pool_of_true opts now
      (enforceLimitsByPool opts now s false).1
  rw [hb] at ht
  exact ht

theorem enforceLimits_pool2_keep (opts : Options) (now : Nat)
    (s : PoolState) {t : Transaction}
    (ht : t ∈ s.pool2.ready ∨ t ∈ s.pool2.future)
    (hnot : t.hash ∉ (enforceLimits opts now s).2) :
    t ∈ (enforceLimits opts now s).1.pool2.ready ∨
    t ∈ (enforceLimits opts now s).1.pool2.future := by
  have ha : (enforceLimitsByPool opts now s false).1.pool2 = s.pool2 :=
    enforceLimitsByPool_pool2_of_false opts now s
  apply enforceLimitsByPool_pool2_keep opts now
    (enforceLimitsByPool opts now s false).1 (ha ▸ ht)
  intro hmem
  exact hnot (List.mem_append_right _ hmem)

theorem processXt_pool_even (api : ChainApi) (now bn : Nat) (atB : BlockId)
    (s : PoolState) (xt : Extrinsic) (he : xt.is_even = some true) :
    (processXt api now bn atB s xt).1.pool = s.pool := by
  simp only [processXt]
  split
  · rfl
  · split
    · rfl
    · rfl
    · rfl
    · split
      · rfl
      · simp only [he]
        split
        · rfl
        · rw [notifyAndFire_pool]

theorem processXt_ok_even (api : ChainApi) (now bn : Nat) (atB : BlockId)
    (s : PoolState) (xt : Extrinsic) (h : Nat) (s2 : PoolState)
    (r : Except PoolError Nat)
    (he : xt.is_even = some true)
    (hpx : processXt api now bn atB s xt = (s2, r))
    (hr : r = .ok h) :
    ∃ t, (t ∈ s2.pool2.ready ∨ t ∈ s2.pool2.future) ∧ t.hash = h := by
  subst hr
  simp only [processXt, he] at hpx
  split at hpx
  · simp at hpx
  · split at hpx
    · simp at hpx
    · simp at hpx
    · simp at hpx
    · split at hpx
      · simp at hpx
      · split at hpx
        · simp at hpx
        · next p2 imported heq =>
          simp only [Prod.mk.injEq, Except.ok.injEq] at hpx
          obtain ⟨hs2, hh⟩ := hpx
          subst hs2
          rcases importTx_mem heq with ⟨him, t, htm, hth⟩
          refine ⟨t, ?_, hth.trans (him.symm.trans hh)⟩
          rw [notifyAndFire_pool2]
          exact htm

/-- C5: an extrinsic whose `is_even()` is `Some(true)` is imported by
`submit_at` into the second base pool: it never appears in the `ready()`
iterator, `status()` reads only the first pool, and on successful
admission the transaction sits in the second pool, where
`remove_invalid` (which operates on both pools) can still remove it. -/
theorem pool2_partition (api : ChainApi) (opts : Options) (now : Nat)
    (s : PoolState) (atB : BlockId) (xt : Extrinsic) (st : PoolState)
    (rs : List (Except PoolError Nat)) (h : Nat)
    (heven : xt.is_even = some true)
    (hh : (api.hash_and_length xt).1 = h)
    (hnot : ∀ t ∈ s.pool.ready, t.hash ≠ h)
    (hok : submit_at api opts now s atB [xt] = .ok (st, rs)) :
    (∀ t ∈ poolReady st, t.hash ≠ h) ∧
    poolStatus st = st.pool.status ∧
    (rs = [.ok h] →
      (∃ t, (t ∈ st.pool2.ready ∨ t ∈ st.pool2.future) ∧ t.hash = h) ∧
      h ∈ (remove_invalid now st [h]).2.map (fun t => t.hash)) := by
  unfold submit_at at hok
  cases hb : api.block_id_to_number atB with
  | error e => rw [hb] at hok; cases hok
  | ok ob =>
    cases ob with
    | none => rw [hb] at hok; cases hok
    | some bn =>
      rw [hb] at hok
      simp only [Except.ok.injEq, Prod.mk.injEq] at hok
      obtain ⟨hst, hrs⟩ := hok
      have hbatch : submitAtBatch api now bn atB s [xt] =
          ((processXt api now bn atB s xt).1,
            [(processXt api now bn atB s xt).2]) := rfl
      have hpool : (processXt api now bn atB s xt).1.pool = s.pool :=
        processXt_pool_even api now bn atB s xt heven
      refine ⟨?_, ?_, ?_⟩
      · intro t hmem
        rw [← hst] at hmem
        have h2 := enforceLimits_pool_ready_subset opts now _ hmem
        rw [hbatch] at h2
        simp only at h2
        rw [hpool] at h2
        exact hnot t h2
      · rfl
      · intro hrs2
        rw [← hrs, hbatch] at hrs2
        simp only [List.map_cons, List.map_nil, List.cons.injEq,
          and_true] at hrs2
        have hr0 : (processXt api now bn atB s xt).2 = .ok h ∧
            h ∉ (enforceLimits opts now
              (submitAtBatch api now bn atB s [xt]).1).2 := by
          split at hrs2
          · next h2 heq =>
            split at hrs2
            · cases hrs2
            · next hc =>
              injection hrs2 with hh2
              subst hh2
              exact ⟨heq, fun hmm => hc (List.elem_eq_true_of_mem hmm)⟩
          · cases hrs2
        obtain ⟨hr0a, hnomem⟩ := hr0
        rcases processXt_ok_even api now bn atB s xt h
          (processXt api now bn atB s xt).1
          (processXt api now bn atB s xt).2 heven rfl hr0a with
          ⟨t, htm, hth⟩
        have hkeep := enforceLimits_pool2_keep opts now
          (submitAtBatch api now bn atB s [xt]).1
          (by rw [hbatch]; exact htm) (by rw [hth]; exact hnomem)
        rw [hst] at hkeep
        refine ⟨⟨t, hkeep, hth⟩, ?_⟩
        have hmem2 : t ∈ (remove_invalid now st [h]).2 := by
          rcases hkeep with hk | hk
          · exact List.mem_append_right _ (List.mem_append_left _
              (List.mem_filter.mpr ⟨hk, by simp [hth]⟩))
          · exact List.mem_append_right _ (List.mem_append_right _
              (List.mem_filter.mpr ⟨hk, by simp [hth]⟩))
        exact List.mem_map.mpr ⟨t, hmem2, hth⟩

/-- Witness for C5: an even extrinsic admitted into the second pool by
a concrete `submit_at` call. -/
theorem pool2_partition_witness :
    ∃ st rs, submit_at fixApi2 fixOptions 0 fixPoolState (.number 0)
      [⟨2, some true⟩] = .ok (st, rs) ∧
      (∀ t ∈ poolReady st, t.hash ≠ 2) ∧
      poolStatus st = st.pool.status ∧
      (rs = [.ok 2] →
        (∃ t, (t ∈ st.pool2.ready ∨ t ∈ st.pool2.future) ∧ t.hash = 2) ∧
        2 ∈ (remove_invalid 0 st [2]).2.map (fun t => t.hash)) :=
  ⟨_, _, rfl, pool2_partition fixApi2 fixOptions 0 fixPoolState (.number 0)
    ⟨2, some true⟩ _ _ 2 rfl rfl (by intro t ht; cases ht) rfl⟩

/-- Witness for C10 at a concrete overflowing block number. -/
theorem submitAt_validTill_saturates_witness :
    ∃ st rs, submit_at (fixApi (2 ^ 64 - 1) 5) fixOptions 0 fixPoolState
      (.number 0) [⟨5, none⟩] = .ok (st, rs) ∧
      (poolReady st).map (fun t => t.valid_till) =
        [computeValidTill (2 ^ 64 - 1) 5] ∧
      computeValidTill (2 ^ 64 - 1) 5 = 2 ^ 64 - 1 :=
  submitAt_validTill_saturates (2 ^ 64 - 1) 5 (by omega)

/-! ## Claim C7: prune_tags bans known hashes and fires pruned events -/

theorem pruneTagsStage1_rotator (now : Nat) (s : PoolState) (tags : List Tag)
    (known : List Nat) :
    (pruneTagsStage1 now s tags known).1.rotator = s.rotator.ban now known := rfl

theorem rot_ban_ttl (r : PoolRotator) (now : Nat) (hs : List Nat) :
    (r.ban now hs).ban_ttl = r.ban_ttl := rfl

theorem remove_invalid_rotator (now : Nat) (s : PoolState) (hs : List Nat) :
    (remove_invalid now s hs).1.rotator = s.rotator.ban now hs := rfl

theorem submit_at_rot_preserved (api : ChainApi) (opts : Options) (now : Nat)
    (s : PoolState) (atB : BlockId) (xts : List Extrinsic) {st : PoolState}
    {rs : List (Except PoolError Nat)} {h : Nat}
    (hok : submit_at api opts now s atB xts = .ok (st, rs))
    (hl : nlookup s.rotator.bans h = some now) :
    nlookup st.rotator.bans h = some now ∧
    st.rotator.ban_ttl = s.rotator.ban_ttl := by
  unfold submit_at at hok
  split at hok
  · cases hok
  · cases hok
  · next bn heq =>
    simp only [Except.ok.injEq, Prod.mk.injEq] at hok
    obtain ⟨hst, hrs⟩ := hok
    subst hst
    have hb := submitAtBatch_rotator' api now bn atB s xts
    have hl2 : nlookup (submitAtBatch api now bn atB s xts).1.rotator.bans h
        = some now := by
      rw [hb]
      exact hl
    have hthis := enforceLimits_rot_preserved opts now
      (submitAtBatch api now bn atB s xts).1 hl2
    rw [hb] at hthis
    exact hthis

theorem clear_stale_banned_of (api : ChainApi) (now : Nat) (s : PoolState)
    (atB : BlockId) {sf : PoolState} {h : Nat}
    (hok : clear_stale api now s atB = .ok sf)
    (hl : nlookup s.rotator.bans h = some now)
    (httl : 0 < s.rotator.ban_ttl) :
    sf.rotator.is_banned now h = true := by
  unfold clear_stale at hok
  split at hok
  · cases hok
  · cases hok
  · next bnRaw heq =>
    simp only [Except.ok.injEq] at hok
    subst hok
    have h1 := banIfStaleFold_rot' now (satU64 bnRaw) s.rotator (poolReady s) hl
    have h2 := banIfStaleFold_rot' now (satU64 bnRaw)
      (banIfStaleFold now (satU64 bnRaw) s.rotator (poolReady s)).1
      (s.pool.future ++ s.pool2.future) h1.1
    have h3 := rot_preserved_ban
      (banIfStaleFold now (satU64 bnRaw) s.rotator (poolReady s)).2 h2.1
    have h4 := rot_preserved_ban
      (banIfStaleFold now (satU64 bnRaw)
        (banIfStaleFold now (satU64 bnRaw) s.rotator (poolReady s)).1
        (s.pool.future ++ s.pool2.future)).2 h3
    have httl2 : 0 < (banIfStaleFold now (satU64 bnRaw)
        (banIfStaleFold now (satU64 bnRaw) s.rotator (poolReady s)).1
        (s.pool.future ++ s.pool2.future)).1.ban_ttl := by
      rw [h2.2, h1.2]
      exact httl
    exact clear_timeouts_banned h4 httl2

theorem clear_stale_listener_mono (api : ChainApi) (now : Nat) (s : PoolState)
    (atB : BlockId) {sf : PoolState} {e : Event}
    (hok : clear_stale api now s atB = .ok sf) (he : e ∈ s.listener) :
    e ∈ sf.listener := by
  unfold clear_stale at hok
  split at hok
  · cases hok
  · cases hok
  · simp only [Except.ok.injEq] at hok
    subst hok
    exact List.mem_append_left _ (List.mem_append_left _ he)

/-- C7: after a successful `prune_tags` the known imported hashes are
banned in the rotator of the returned state, the pruned transactions are
re-submitted through `submit_at` at the same block, and a
`pruned(header_hash, h)` listener event has been fired both for every
known imported hash and for every pruned transaction whose re-submission
reported `InvalidTransaction`. -/
theorem prune_tags_bans_and_pruned_events (api : ChainApi) (opts : Options)
    (now : Nat) (s : PoolState) (atB : BlockId) (tags : List Tag)
    (known : List Nat) (sf : PoolState)
    (httl : 0 < s.rotator.ban_ttl)
    (hok : prune_tags api opts now s atB tags known = .ok sf) :
    ∃ hh s4 results,
      api.block_id_to_hash atB = .ok (some hh) ∧
      submit_at api opts now (pruneTagsStage1 now s tags known).1 atB
        ((pruneTagsStage1 now s tags known).2.map (fun t => t.data)) =
          .ok (s4, results) ∧
      (∀ h ∈ known, sf.rotator.is_banned now h = true) ∧
      (∀ h ∈ known, Event.pruned hh h ∈ sf.listener) ∧
      (∀ h ∈ collectInvalid
          ((pruneTagsStage1 now s tags known).2.map (fun t => t.hash)) results,
        Event.pruned hh h ∈ sf.listener) := by
  simp only [prune_tags] at hok
  split at hok
  · cases hok
  · next s4 results heq1 =>
    split at hok
    · cases hok
    · cases hok
    · next hh heq2 =>
      refine ⟨hh, s4, results, heq2, heq1, ?_, ?_, ?_⟩
      · intro h hmem
        have hl0 : nlookup (pruneTagsStage1 now s tags known).1.rotator.bans h
            = some now := by
          rw [pruneTagsStage1_rotator]
          exact rot_ban_self hmem
        have hsr := submit_at_rot_preserved api opts now _ atB _ heq1 hl0
        exact clear_stale_banned_of api now _ atB hok hsr.1
          (by
            show (0:Nat) < s4.rotator.ban_ttl
            rw [hsr.2, pruneTagsStage1_rotator, rot_ban_ttl]
            exact httl)
      · intro h hmem
        apply clear_stale_listener_mono api now _ atB hok
        show Event.pruned hh h ∈ s4.listener ++ _
        apply List.mem_append_right
        exact List.mem_map_of_mem _ (List.mem_append_right _ hmem)
      · intro h hmem
        apply clear_stale_listener_mono api now _ atB hok
        show Event.pruned hh h ∈ s4.listener ++ _
        apply List.mem_append_right
        exact List.mem_map_of_mem _ (List.mem_append_left _ hmem)

set_option maxHeartbeats 1000000 in
/-- Witness for C7: pruning with one known imported hash on the empty
pool bans the hash and fires its `pruned` event. -/
theorem prune_tags_bans_and_pruned_events_witness :
    ∃ sf, prune_tags fixApi2 fixOptions 0 fixPoolState (.number 0) [] [7]
        = .ok sf ∧
      ∃ hh s4 results,
        fixApi2.block_id_to_hash (.number 0) = .ok (some hh) ∧
        submit_at fixApi2 fixOptions 0
          (pruneTagsStage1 0 fixPoolState [] [7]).1 (.number 0)
          ((pruneTagsStage1 0 fixPoolState [] [7]).2.map (fun t => t.data)) =
            .ok (s4, results) ∧
        (∀ h ∈ [7], sf.rotator.is_banned 0 h = true) ∧
        (∀ h ∈ [7], Event.pruned hh h ∈ sf.listener) ∧
        (∀ h ∈ collectInvalid
            ((pruneTagsStage1 0 fixPoolState [] [7]).2.map (fun t => t.hash))
            results,
          Event.pruned hh h ∈ sf.listener) :=
  ⟨_, rfl, prune_tags_bans_and_pruned_events fixApi2 fixOptions 0 fixPoolState
    (.number 0) [] [7] _ (by decide) rfl⟩

end Substrate
